import Mathlib

/-!
Verification of the photo-flow file reconciliation and safe-transfer engine
(`photo_flow/file_manager.py`, `photo_flow/image_processor.py`,
`photo_flow/workflow.py`).

The embedding models the file system as a finite association list from paths
(lists of components, standing for the `pathlib.Path` values) to files, plus a
list of existing directories.  File contents are byte lists.  The MD5 digest of
a byte stream is modelled as the byte stream itself that is fed to the hasher:
digest equality then coincides with equality of the hashed byte streams, which
is the abstraction the code relies on (`hashlib.md5` is an external collision
resistant function).  The 4096-byte chunked reads of `get_file_hash` feed the
concatenation of the chunks, i.e. exactly the selected byte ranges, to the
hasher, so the model records the selected ranges directly.

Stateful Python (the class-level `_hash_cache`, `shutil.copy2`, `unlink`,
`mkdir`) is modelled by explicit state passing of a cache and a world value.
Some returned structures carry instrumentation fields (`computed`, `reads`,
`copied`) recording whether the byte-reading / byte-transfer steps executed;
these correspond to no Python value but only observe which code path ran.
-/

namespace PhotoFlow

/-- A file: content bytes, modification time, and whether opening it for
reading succeeds (stands for the OS permission / IO-error behaviour that makes
`open` raise). `shutil.copy2` preserves content, mtime and mode. -/
structure File where
  content : List Nat
  mtime : Nat
  readable : Bool
deriving DecidableEq, Repr

/-- A path, as its list of components (stands for a `pathlib.Path`; the string
`str(path)` used as cache key is injective on these). -/
abbrev FPath := List String

/-- The files of the file system: an association list path ↦ file. -/
abbrev FS := List (FPath × File)

/-- Lookup of a path in the file system (`Path.exists` / `stat` / `open`). -/
def lookupFile : FS → FPath → Option File
  | [], _ => none
  | (q, f) :: rest, p => if q = p then some f else lookupFile rest p

/-- Write a file at a path, replacing any existing entry (`shutil.copy2` /
`Path.replace` onto the destination). -/
def insertFile : FS → FPath → File → FS
  | [], p, f => [(p, f)]
  | (q, g) :: rest, p, f =>
    if q = p then (q, f) :: rest else (q, g) :: insertFile rest p f

/-- Remove a path from the file system unconditionally (used for the
`finally`-style temp-file cleanup that ignores a missing file). -/
def removeFile (fs : FS) (p : FPath) : FS :=
  fs.filter (fun e => e.1 ≠ p)

/-- The render of a path in error messages (`str(path)`). -/
def pathStr (p : FPath) : String :=
  String.intercalate "/" p

/-- One mebibyte, the head/tail window of partial hashing. -/
def MB : Nat := 1024 * 1024

/-- The 10 MiB large-file threshold of `get_file_hash`. -/
def hashLimit : Nat := 10 * 1024 * 1024

/-- The cache key of `FileManager._hash_cache`:
`(str(file_path), file_size, file_stat.st_mtime, partial)`. -/
abbrev HashKey := FPath × Nat × Nat × Bool

/-- The class-level hash cache, an association list key ↦ digest. -/
abbrev Cache := List (HashKey × List Nat)

/-- Lookup in the hash cache (`cache_key in cls._hash_cache`). -/
def lookupCache : Cache → HashKey → Option (List Nat)
  | [], _ => none
  | (k, v) :: rest, key => if k = key then some v else lookupCache rest key

/-- Store a digest in the hash cache (`cls._hash_cache[cache_key] = result`);
only ever called on a key that missed. -/
def insertCache (c : Cache) (k : HashKey) (v : List Nat) : Cache :=
  (k, v) :: c

/-- The byte stream fed to the MD5 hasher by `get_file_hash`: the whole
content when `partial` is false or the size is at most the 10 MiB threshold,
otherwise the first 1 MiB followed by the bytes from offset
`max(file_size - 1024*1024, 0)` to the end. -/
def hashedBytes (size : Nat) (content : List Nat) (partialFlag : Bool) : List Nat :=
  if partialFlag = false ∨ size ≤ hashLimit then content
  else content.take MB ++ content.drop (max (size - MB) 0)

/-- Result of `FileManager.get_file_hash`: the `(hash, error)` pair (digest as
the hashed byte stream, empty digest alongside a non-empty error message on
failure), the cache after the call, and the instrumentation flag `computed`
recording whether the file's bytes were read and hashed in this call. -/
structure HashRet where
  hash : List Nat
  error : String
  cache : Cache
  computed : Bool
deriving DecidableEq, Repr

/-- `FileManager.get_file_hash(file_path, partial)`.  `stat` on a missing file
raises (caught into the error return); on a hit of the
`(path, size, mtime, partial)` key the cached digest is returned without
reading the file; on a miss the selected byte ranges are hashed and cached;
`open` on an unreadable file raises (caught into the error return). -/
def get_file_hash (fs : FS) (cache : Cache) (p : FPath) (partialFlag : Bool) : HashRet :=
  match lookupFile fs p with
  | none => ⟨[], "Error generating hash for " ++ pathStr p, cache, false⟩
  | some f =>
    let size := f.content.length
    let key : HashKey := (p, size, f.mtime, partialFlag)
    match lookupCache cache key with
    | some h => ⟨h, "", cache, false⟩
    | none =>
      if f.readable then
        let h := hashedBytes size f.content partialFlag
        ⟨h, "", insertCache cache key h, true⟩
      else
        ⟨[], "Error generating hash for " ++ pathStr p, cache, false⟩

/-- Result of `FileManager.is_duplicate`: the `(is_duplicate, error_message)`
pair, the cache after the call, and the instrumentation counter `reads`
counting how many hash computations actually read file bytes. -/
structure DupRet where
  isDup : Bool
  error : String
  cache : Cache
  reads : Nat
deriving DecidableEq, Repr

/-- `FileManager.is_duplicate(src, dst)`: missing destination is not a
duplicate with no error; a `stat` failure on the source is caught into an
error return; differing sizes are not a duplicate with no error and no
hashing; equal sizes compare the partial-scope digests of both files, with
either hash error surfaced to the caller. -/
def is_duplicate (fs : FS) (cache : Cache) (src dst : FPath) : DupRet :=
  match lookupFile fs dst with
  | none => ⟨false, "", cache, 0⟩
  | some df =>
    match lookupFile fs src with
    | none => ⟨false, "Error comparing file sizes: " ++ pathStr src, cache, 0⟩
    | some sf =>
      if sf.content.length ≠ df.content.length then ⟨false, "", cache, 0⟩
      else
        let rs := get_file_hash fs cache src true
        if rs.error ≠ "" then ⟨false, rs.error, rs.cache, 0⟩
        else
          let rd := get_file_hash fs rs.cache dst true
          if rd.error ≠ "" then
            ⟨false, rd.error, rd.cache, if rs.computed then 1 else 0⟩
          else
            ⟨rs.hash == rd.hash, "", rd.cache,
              (if rs.computed then 1 else 0) + (if rd.computed then 1 else 0)⟩

/-- The world: the existing directories and the files of the file system.
Directory existence is listed separately so that an empty directory and a
missing directory are distinguishable (`STAGING_PATH.exists()` etc.). -/
structure World where
  dirs : List FPath
  files : FS
deriving DecidableEq, Repr

/-- All non-empty prefixes of a path: the chain of directories that
`mkdir(parents=True)` creates. -/
def ancestorsOf : FPath → List FPath
  | [] => []
  | a :: rest => [a] :: (ancestorsOf rest).map (fun q => a :: q)

/-- `d.mkdir(parents=True, exist_ok=True)`: add the missing directories of the
chain leading to `d`. -/
def mkdirs (w : World) (d : FPath) : World :=
  { w with dirs := (ancestorsOf d).filter (fun q => ¬ q ∈ w.dirs) ++ w.dirs }

/-- The parent directory of a path (`path.parent`, within the modelled tree). -/
def parentOf (p : FPath) : FPath := p.dropLast

/-- The final component of a path (`path.name`). -/
def fileName (p : FPath) : String := p.getLastD ""

/-- `shutil.copy2(src, dst)`: copy content together with mtime and mode;
`none` stands for the raised exception when the source is missing or cannot be
opened. -/
def copyFile (w : World) (src dst : FPath) : Option World :=
  match lookupFile w.files src with
  | none => none
  | some f =>
    if f.readable then
      some { w with files := insertFile w.files dst ⟨f.content, f.mtime, f.readable⟩ }
    else none

/-- `path.unlink()`: `none` stands for the raised exception when the file is
missing. -/
def unlink (w : World) (p : FPath) : Option World :=
  match lookupFile w.files p with
  | none => none
  | some _ => some { w with files := removeFile w.files p }

/-- Result of `FileManager.safe_copy`: the `(success, error_message)` pair,
the world and cache after the call, and the instrumentation flag `copied`
recording whether the `shutil.copy2` byte transfer executed. -/
structure CopyRet where
  success : Bool
  error : String
  world : World
  cache : Cache
  copied : Bool
deriving DecidableEq, Repr

/-- The copy-and-verify tail of `safe_copy`, reached when the destination does
not exist or is not an identical duplicate: `shutil.copy2` (whose exception is
caught into an error return), then re-verification through `is_duplicate`,
reporting failure when the post-copy check does not confirm identity. -/
def safe_copy_transfer (w : World) (c : Cache) (src dst : FPath) : CopyRet :=
  match copyFile w src dst with
  | none => ⟨false, "Error copying " ++ pathStr src ++ " to " ++ pathStr dst, w, c, false⟩
  | some w2 =>
    let r := is_duplicate w2.files c src dst
    if r.error ≠ "" then ⟨false, r.error, w2, r.cache, true⟩
    else if r.isDup then ⟨true, "", w2, r.cache, true⟩
    else ⟨false, "Verification failed: copied file does not match source for " ++ pathStr src,
          w2, r.cache, true⟩

/-- `FileManager.safe_copy(src, dst)`: create the destination's parent
directory, short-circuit with success when the destination already exists and
`is_duplicate` confirms identity (surfacing a duplicate-check error as
failure), otherwise copy with metadata and verify. -/
def safe_copy (w0 : World) (c : Cache) (src dst : FPath) : CopyRet :=
  let w := mkdirs w0 (parentOf dst)
  match lookupFile w.files dst with
  | some _ =>
    let r := is_duplicate w.files c src dst
    if r.error ≠ "" then ⟨false, r.error, w, r.cache, false⟩
    else if r.isDup then ⟨true, "", w, r.cache, false⟩
    else safe_copy_transfer w r.cache src dst
  | none => safe_copy_transfer w c src dst

/-! The workflow layer (`workflow.py`, `image_processor.py`). -/

/-- Kernel-reducible `str.startswith(pre)` over the character list. -/
def strStartsWith (s pre : String) : Bool :=
  pre.data.isPrefixOf s.data

/-- Kernel-reducible `str.endswith(suf)` over the character list. -/
def strEndsWith (s suf : String) : Bool :=
  suf.data.isSuffixOf s.data

/-- Kernel-reducible `str.upper()` over the character list. -/
def strToUpper (s : String) : String :=
  ⟨s.data.map Char.toUpper⟩

/-- Kernel-reducible `str.lower()` over the character list. -/
def strToLower (s : String) : String :=
  ⟨s.data.map Char.toLower⟩

/-- Kernel-reducible `extension[1:]` (drop one leading character). -/
def strDropHead (s : String) : String :=
  ⟨s.data.drop 1⟩

/-- `is_valid_image_file`: excludes macOS resource forks, macOS metadata and
Windows thumbnail files by filename convention. -/
def is_valid_image_file (n : String) : Bool :=
  !(strStartsWith n "._" || strStartsWith n ".DS_Store" || strStartsWith n "Thumbs.db")

/-- Whether `name` matches the glob pattern `*.<ext>`: a suffix match on
`.<ext>`, with the glob rule that `*` never matches a leading dot. -/
def globExt (n : String) (ext : String) : Bool :=
  !strStartsWith n "." && strEndsWith n ("." ++ ext)

/-- `str.split('.')` over the character list (kernel-reducible stand-in for
the `splitOn` behind `pathlib`'s suffix/stem). -/
def splitDots : List Char → List (List Char)
  | [] => [[]]
  | c :: rest =>
    if c = '.' then [] :: splitDots rest
    else
      match splitDots rest with
      | [] => [[c]]
      | g :: gs => (c :: g) :: gs

/-- Joining of name groups with dots, the inverse of `splitDots`. -/
def joinDots : List (List Char) → List Char
  | [] => []
  | [g] => g
  | g :: gs => g ++ '.' :: joinDots gs

/-- `pathlib.Path.suffix` for the dot-free names produced by the scans. -/
def suffixOf (n : String) : String :=
  let parts := splitDots n.data
  if parts.length ≤ 1 then "" else ⟨'.' :: parts.getLastD []⟩

/-- `pathlib.Path.stem` for the dot-free names produced by the scans. -/
def stemOf (n : String) : String :=
  let parts := splitDots n.data
  if parts.length ≤ 1 then n else ⟨joinDots parts.dropLast⟩

/-- `config.CAMERA_PATH` (`/Volumes/Fuji X-T4/DCIM`). -/
def CAMERA_PATH : FPath := ["Volumes", "Fuji X-T4", "DCIM"]

/-- `config.STAGING_PATH`. -/
def STAGING_PATH : FPath := ["Users", "johannes.krumm", "Pictures", "Staging"]

/-- `config.RAWS_PATH`. -/
def RAWS_PATH : FPath := ["Users", "johannes.krumm", "Pictures", "RAWs"]

/-- `config.FINAL_PATH`. -/
def FINAL_PATH : FPath := ["Users", "johannes.krumm", "Pictures", "Final"]

/-- `config.SSD_PATH`. -/
def SSD_PATH : FPath := ["Volumes", "EXT", "Videos", "Videos"]

/-- The files directly inside a directory whose name satisfies a predicate,
in file-system enumeration order (the model's stand-in for glob order, which
the spec treats as unspecified). -/
def dirFilesWith (fs : FS) (dir : FPath) (pred : String → Bool) : List FPath :=
  (fs.filter (fun e => parentOf e.1 = dir ∧ pred (fileName e.1) = true)).map (fun e => e.1)

/-- `file_manager.scan_for_images(directory, extension)`: the `*.EXT` matches
followed by the `*.ext` matches, each filtered by `is_valid_image_file`. -/
def scan_for_images (fs : FS) (directory : FPath) (extension : String) : List FPath :=
  let e := if strStartsWith extension "." then strDropHead extension else extension
  dirFilesWith fs directory (fun n => globExt n (strToUpper e) && is_valid_image_file n) ++
    dirFilesWith fs directory (fun n => globExt n (strToLower e) && is_valid_image_file n)

/-- The camera DCIM folders: directories matching the glob `*_*` (a name
containing an underscore, not starting with a dot). -/
def camFolders (w : World) : List FPath :=
  w.dirs.filter (fun d =>
    parentOf d = CAMERA_PATH ∧
      (!strStartsWith (fileName d) "." && (fileName d).data.any (fun ch => ch = '_')) = true)

/-- The per-extension result of `FileManager.scan_camera_files`. -/
structure CamFiles where
  jpg : List FPath
  raf : List FPath
  mov : List FPath
deriving DecidableEq, Repr

/-- `FileManager.scan_camera_files()`: an empty result when the camera is not
mounted, otherwise the valid files of every `*_*` DCIM folder, categorised by
upper-cased suffix into the known extensions. -/
def scan_camera_files (w : World) : CamFiles :=
  if CAMERA_PATH ∈ w.dirs then
    let entries := ((camFolders w).map (fun folder =>
      dirFilesWith w.files folder (fun n => !strStartsWith n "." && is_valid_image_file n))).flatten
    ⟨entries.filter (fun p => strToUpper (suffixOf (fileName p)) = ".JPG"),
     entries.filter (fun p => strToUpper (suffixOf (fileName p)) = ".RAF"),
     entries.filter (fun p => strToUpper (suffixOf (fileName p)) = ".MOV")⟩
  else ⟨[], [], []⟩

/-- Trace events instrumenting the workflow: each `safe_copy` call made by the
workflow is recorded as `copied src dst success`, and each successful `unlink`
of a workflow file as `deleted p` (temporary-file hygiene removals are not
workflow deletions and are not recorded). -/
inductive Ev where
  | copied : FPath → FPath → Bool → Ev
  | deleted : FPath → Ev
deriving DecidableEq, Repr

/-- The `{processed, skipped, errors}` counters of `_process_files`. -/
structure Stats3 where
  processed : Nat
  skipped : Nat
  errors : Nat
deriving DecidableEq, Repr

/-- Result of `_process_files`: counters, resulting world and cache, trace. -/
structure PFRet where
  stats : Stats3
  world : World
  cache : Cache
  trace : List Ev
deriving DecidableEq, Repr

/-- `PhotoWorkflow._process_files(files, destination, ...)`: per file, a
duplicate-check error counts an error; an existing identical destination
counts a skip; otherwise `safe_copy`, counting a success as processed and
deleting the original afterwards when `delete_original` (an `unlink` failure
adds an error); a copy failure counts an error.  Processing always continues
with the remaining files. -/
def process_files (destination : FPath) (dry del : Bool) :
    List FPath → World → Cache → PFRet
  | [], w, c => ⟨⟨0, 0, 0⟩, w, c, []⟩
  | fp :: rest, w, c =>
    if dry then
      let r := process_files destination dry del rest w c
      ⟨⟨r.stats.processed + 1, r.stats.skipped, r.stats.errors⟩, r.world, r.cache, r.trace⟩
    else
      let dst := destination ++ [fileName fp]
      let rd := is_duplicate w.files c fp dst
      if rd.error ≠ "" then
        let r := process_files destination dry del rest w rd.cache
        ⟨⟨r.stats.processed, r.stats.skipped, r.stats.errors + 1⟩, r.world, r.cache, r.trace⟩
      else if (lookupFile w.files dst).isSome && rd.isDup then
        let r := process_files destination dry del rest w rd.cache
        ⟨⟨r.stats.processed, r.stats.skipped + 1, r.stats.errors⟩, r.world, r.cache, r.trace⟩
      else
        let rc := safe_copy w rd.cache fp dst
        if rc.success then
          if del then
            match unlink rc.world fp with
            | some w2 =>
              let r := process_files destination dry del rest w2 rc.cache
              ⟨⟨r.stats.processed + 1, r.stats.skipped, r.stats.errors⟩, r.world, r.cache,
                Ev.copied fp dst true :: Ev.deleted fp :: r.trace⟩
            | none =>
              let r := process_files destination dry del rest rc.world rc.cache
              ⟨⟨r.stats.processed + 1, r.stats.skipped, r.stats.errors + 1⟩, r.world, r.cache,
                Ev.copied fp dst true :: r.trace⟩
          else
            let r := process_files destination dry del rest rc.world rc.cache
            ⟨⟨r.stats.processed + 1, r.stats.skipped, r.stats.errors⟩, r.world, r.cache,
              Ev.copied fp dst true :: r.trace⟩
        else
          let r := process_files destination dry del rest rc.world rc.cache
          ⟨⟨r.stats.processed, r.stats.skipped, r.stats.errors + 1⟩, r.world, r.cache,
            Ev.copied fp dst false :: r.trace⟩

/-- The environment of external collaborators of `compress_jpeg_safe`: whether
`exiftool` is on the PATH, which byte contents PIL can open and decode, and
the bytes produced by the compress-resize-recompress-copy-metadata pipeline
for a given input. -/
structure Env where
  exiftool : Bool
  decodable : List Nat → Bool
  compressOut : List Nat → List Nat

/-- `ImageProcessor.compress_jpeg_safe(input_path, output_path)`: fails with
no side effect when `exiftool` is missing, when the input cannot be opened or
decoded, or when the compressed result fails re-verification; on success the
output path receives the compressed bytes.  The function's internal temporary
file is created and removed within the call on every path and is elided; the
replaced output's fresh mtime is modelled as 0; the backup dance for
`output_path == input_path` nets to the same final write. -/
def compress_jpeg_safe (env : Env) (w : World) (input output : FPath) :
    (Bool × String) × World :=
  if env.exiftool = false then
    ((false, "exiftool not found. Install with: brew install exiftool"), w)
  else
    match lookupFile w.files input with
    | none => ((false, "Error compressing JPEG " ++ pathStr input), w)
    | some f =>
      if f.readable = false then
        ((false, "Error compressing JPEG " ++ pathStr input), w)
      else if env.decodable f.content = false then
        ((false, "Error compressing JPEG " ++ pathStr input), w)
      else if env.decodable (env.compressOut f.content) = false then
        ((false, "Compressed image verification failed"), w)
      else
        ((true, ""),
         { w with files := insertFile w.files output ⟨env.compressOut f.content, 0, true⟩ })

/-- The name of the `NamedTemporaryFile` created for the i-th staging file of
a finalize run (fresh single-component paths, disjoint from every directory
tree of the model). -/
def tmpName (i : Nat) : FPath := ["pf-tmp-" ++ toString i]

/-- Result of the compress-then-promote loop of `finalize_staging`. -/
structure Phase1Ret where
  moved : Nat
  compressed : Nat
  skipped : Nat
  errors : Nat
  world : World
  cache : Cache
  trace : List Ev
deriving DecidableEq, Repr

/-- The per-staging-file compress-then-promote loop of
`PhotoWorkflow.finalize_staging`: skip an identical existing Final copy (the
duplicate-check error being discarded there, as in the source); in dry-run
count the move; otherwise create a temporary file, compress into it, copy it
to Final via `safe_copy`, delete the staging file only after a successful
verified copy, and remove the temporary in the `finally` block; every failure
counts one error for that file and processing continues with the rest. -/
def finalizePhase1 (env : Env) (dry : Bool) :
    List FPath → Nat → World → Cache → Phase1Ret
  | [], _, w, c => ⟨0, 0, 0, 0, w, c, []⟩
  | sf :: rest, i, w, c =>
    let final_path := FINAL_PATH ++ [fileName sf]
    let skipDup : Bool × Cache :=
      match lookupFile w.files final_path with
      | some _ =>
        let r := is_duplicate w.files c sf final_path
        (r.isDup, r.cache)
      | none => (false, c)
    if skipDup.1 then
      let r := finalizePhase1 env dry rest (i + 1) w skipDup.2
      ⟨r.moved, r.compressed, r.skipped + 1, r.errors, r.world, r.cache, r.trace⟩
    else if dry then
      let r := finalizePhase1 env dry rest (i + 1) w skipDup.2
      ⟨r.moved + 1, r.compressed + 1, r.skipped, r.errors, r.world, r.cache, r.trace⟩
    else
      let w1 : World := { w with files := insertFile w.files (tmpName i) ⟨[], 0, true⟩ }
      let comp := compress_jpeg_safe env w1 sf (tmpName i)
      if comp.1.1 = false then
        let w2 : World := { comp.2 with files := removeFile comp.2.files (tmpName i) }
        let r := finalizePhase1 env dry rest (i + 1) w2 skipDup.2
        ⟨r.moved, r.compressed, r.skipped, r.errors + 1, r.world, r.cache, r.trace⟩
      else
        let rc := safe_copy comp.2 skipDup.2 (tmpName i) final_path
        if rc.success then
          match unlink rc.world sf with
          | some w3 =>
            let w4 : World := { w3 with files := removeFile w3.files (tmpName i) }
            let r := finalizePhase1 env dry rest (i + 1) w4 rc.cache
            ⟨r.moved + 1, r.compressed + 1, r.skipped, r.errors, r.world, r.cache,
              Ev.copied (tmpName i) final_path true :: Ev.deleted sf :: r.trace⟩
          | none =>
            let w4 : World := { rc.world with files := removeFile rc.world.files (tmpName i) }
            let r := finalizePhase1 env dry rest (i + 1) w4 rc.cache
            ⟨r.moved, r.compressed, r.skipped, r.errors + 1, r.world, r.cache,
              Ev.copied (tmpName i) final_path true :: r.trace⟩
        else
          let w4 : World := { rc.world with files := removeFile rc.world.files (tmpName i) }
          let r := finalizePhase1 env dry rest (i + 1) w4 rc.cache
          ⟨r.moved, r.compressed, r.skipped, r.errors + 1, r.world, r.cache,
            Ev.copied (tmpName i) final_path false :: r.trace⟩

/-- Result of the camera-RAW deletion loop of `finalize_staging`. -/
structure DelRet where
  deleted : Nat
  errors : Nat
  world : World
  trace : List Ev
deriving DecidableEq, Repr

/-- The camera-RAW deletion loop of `finalize_staging`: unlink each finalized
RAW (counting dry-run deletions without acting), an unlink failure counting
one error. -/
def deleteCameraRaws (dry : Bool) : List FPath → World → DelRet
  | [], w => ⟨0, 0, w, []⟩
  | p :: rest, w =>
    if dry = false then
      match unlink w p with
      | some w2 =>
        let r := deleteCameraRaws dry rest w2
        ⟨r.deleted + 1, r.errors, r.world, Ev.deleted p :: r.trace⟩
      | none =>
        let r := deleteCameraRaws dry rest w
        ⟨r.deleted, r.errors + 1, r.world, r.trace⟩
    else
      let r := deleteCameraRaws dry rest w
      ⟨r.deleted + 1, r.errors, r.world, r.trace⟩

/-- The statistics dictionary of `finalize_staging`. -/
structure FinStats where
  moved : Nat
  compressed : Nat
  copied_to_camera : Nat
  orphaned_raws : Nat
  deleted_raws : Nat
  deleted_camera_raws : Nat
  skipped : Nat
  errors : Nat
deriving DecidableEq, Repr

/-- The all-zero `finalize_staging` statistics. -/
def zeroFin : FinStats := ⟨0, 0, 0, 0, 0, 0, 0, 0⟩

/-- Result of `finalize_staging`. -/
structure FinRet where
  stats : FinStats
  world : World
  cache : Cache
  trace : List Ev
deriving DecidableEq, Repr

/-- The RAW files of the RAW backup directory: `RAWS_PATH.glob('*.RAF')`
filtered by `is_valid_image_file`. -/
def rawBackupFiles (fs : FS) : List FPath :=
  dirFilesWith fs RAWS_PATH (fun n => globExt n "RAF" && is_valid_image_file n)

/-- The stems of the final library's JPG files. -/
def finalJpgBases (fs : FS) : List String :=
  (scan_for_images fs FINAL_PATH ".JPG").map (fun q => stemOf (fileName q))

/-- `PhotoWorkflow.finalize_staging(dry_run)`: nothing happens when the
staging directory is missing; otherwise the Final directory is created (when
not dry-run) and four independent phases run: the compress-then-promote loop,
the copy of Final photos back onto the first detected camera folder
(`delete_original=false`, one error when the camera is mounted but exposes no
folder), the deletion of camera RAWs whose stem has a Final JPG, and the
orphaned-RAW cleanup of the RAW backup through `_process_files`. -/
def finalize_staging (env : Env) (w0 : World) (c0 : Cache) (dry : Bool) : FinRet :=
  if STAGING_PATH ∈ w0.dirs then
    let staging_files := scan_for_images w0.files STAGING_PATH ".JPG"
    let w1 := if dry = false then mkdirs w0 FINAL_PATH else w0
    let p1 := finalizePhase1 env dry staging_files 0 w1 c0
    let p2 :=
      if CAMERA_PATH ∈ p1.world.dirs then
        let final_files := scan_for_images p1.world.files FINAL_PATH ".JPG"
        match camFolders p1.world with
        | [] => (⟨⟨0, 0, 1⟩, p1.world, p1.cache, []⟩ : PFRet)
        | folder :: _ => process_files folder dry false final_files p1.world p1.cache
      else (⟨⟨0, 0, 0⟩, p1.world, p1.cache, []⟩ : PFRet)
    let p3 :=
      if CAMERA_PATH ∈ p2.world.dirs ∧ FINAL_PATH ∈ p2.world.dirs then
        let bases := finalJpgBases p2.world.files
        let camera_raws := (scan_camera_files p2.world).raf
        let finalized := camera_raws.filter (fun q => stemOf (fileName q) ∈ bases)
        deleteCameraRaws dry finalized p2.world
      else (⟨0, 0, p2.world, []⟩ : DelRet)
    let p4 :=
      if RAWS_PATH ∈ p3.world.dirs ∧ FINAL_PATH ∈ p3.world.dirs then
        let bases := finalJpgBases p3.world.files
        let orphaned := (rawBackupFiles p3.world.files).filter
          (fun q => ¬ stemOf (fileName q) ∈ bases)
        if dry = false ∧ orphaned ≠ [] then
          let pr := process_files RAWS_PATH dry true orphaned p3.world p2.cache
          (⟨⟨orphaned.length, pr.stats.processed, pr.stats.errors⟩, pr.world, pr.cache,
            pr.trace⟩ : PFRet)
        else (⟨⟨orphaned.length, 0, 0⟩, p3.world, p2.cache, []⟩ : PFRet)
      else (⟨⟨0, 0, 0⟩, p3.world, p2.cache, []⟩ : PFRet)
    ⟨⟨p1.moved, p1.compressed, p2.stats.processed, p4.stats.processed, p4.stats.skipped,
      p3.deleted, p1.skipped + p2.stats.skipped,
      p1.errors + p2.stats.errors + p3.errors + p4.stats.errors⟩,
     p4.world, p4.cache, p1.trace ++ p2.trace ++ p3.trace ++ p4.trace⟩
  else ⟨zeroFin, w0, c0, []⟩

/-- Result of `cleanup_unused_raws`. -/
structure CleanRet where
  orphaned : Nat
  deleted : Nat
  errors : Nat
  world : World
  cache : Cache
  trace : List Ev
deriving DecidableEq, Repr

/-- `PhotoWorkflow.cleanup_unused_raws(dry_run)`: nothing happens unless both
the RAW backup and the final directory exist; orphans (RAW files without a
same-stem final JPG) are always counted; outside dry-run the orphan list is
handed to `_process_files` with the RAW directory itself as the dummy
destination, `deleted` being its processed count and `errors` its error
count. -/
def cleanup_unused_raws (w : World) (c : Cache) (dry : Bool) : CleanRet :=
  if RAWS_PATH ∈ w.dirs ∧ FINAL_PATH ∈ w.dirs then
    let bases := finalJpgBases w.files
    let orphaned := (rawBackupFiles w.files).filter (fun q => ¬ stemOf (fileName q) ∈ bases)
    if dry = false ∧ orphaned ≠ [] then
      let pr := process_files RAWS_PATH dry true orphaned w c
      ⟨orphaned.length, pr.stats.processed, pr.stats.errors, pr.world, pr.cache, pr.trace⟩
    else ⟨orphaned.length, 0, 0, w, c, []⟩
  else ⟨0, 0, 0, w, c, []⟩

/-- Result of `import_from_camera`. -/
structure ImportRet where
  videos : Nat
  photos : Nat
  raws : Nat
  skipped : Nat
  errors : Nat
  world : World
  cache : Cache
  trace : List Ev
deriving DecidableEq, Repr

/-- `PhotoWorkflow.import_from_camera(dry_run)`: scan the camera, exclude the
JPG and RAF files whose stem already exists among the final library's JPG
stems (counting them as skipped), and stream videos to the SSD archive,
photos to staging and RAWs to the RAW backup through `_process_files`, each
with delete-on-verified-success. -/
def import_from_camera (w : World) (c : Cache) (dry : Bool) : ImportRet :=
  let files := scan_camera_files w
  let bases := if FINAL_PATH ∈ w.dirs then finalJpgBases w.files else []
  let jpg_files := files.jpg.filter (fun p => ¬ stemOf (fileName p) ∈ bases)
  let raf_files := files.raf.filter (fun p => ¬ stemOf (fileName p) ∈ bases)
  let mov_files := files.mov
  let skipped_finalized := (files.jpg.length - jpg_files.length) +
    (files.raf.length - raf_files.length)
  let movR := process_files SSD_PATH dry true mov_files w c
  let jpgR := process_files STAGING_PATH dry true jpg_files movR.world movR.cache
  let rafR := process_files RAWS_PATH dry true raf_files jpgR.world jpgR.cache
  ⟨movR.stats.processed, jpgR.stats.processed, rafR.stats.processed,
   movR.stats.skipped + jpgR.stats.skipped + rafR.stats.skipped + skipped_finalized,
   movR.stats.errors + jpgR.stats.errors + rafR.stats.errors,
   rafR.world, rafR.cache, movR.trace ++ jpgR.trace ++ rafR.trace⟩

/-- Whether every `deleted p` event of a trace is preceded by a successful
`copied p _ true` event (given the sources already verified in `seen`): the
formal reading of "every unlink of a source file is preceded by a successful
verified safe_copy of that same file". -/
def deletionsVerified (seen : List FPath) : List Ev → Bool
  | [] => true
  | Ev.copied s _ ok :: rest => deletionsVerified (if ok then s :: seen else seen) rest
  | Ev.deleted p :: rest => decide (p ∈ seen) && deletionsVerified seen rest

/-! Concrete scenario inputs for the workflow claims. -/

/-- The world of spec Scenario 2: RAW backup holds `IMG_001.RAF` and
`IMG_002.RAF`, the final library holds only `IMG_001.JPG`. -/
def cleanupW : World :=
  ⟨[RAWS_PATH, FINAL_PATH],
   [(RAWS_PATH ++ ["IMG_001.RAF"], ⟨[1], 0, true⟩),
    (RAWS_PATH ++ ["IMG_002.RAF"], ⟨[2], 0, true⟩),
    (FINAL_PATH ++ ["IMG_001.JPG"], ⟨[3], 0, true⟩)]⟩

/-- Environment of spec Scenario 4: exiftool present, every content decodable
except the corrupt bytes `[9]`, compression prepending a marker byte. -/
def env7 : Env := ⟨true, fun bs => !(bs == [9]), fun bs => 7 :: bs⟩

/-- The world of spec Scenario 4: three staging files of which `b.JPG` is
corrupt. -/
def finW7 : World :=
  ⟨[STAGING_PATH],
   [(STAGING_PATH ++ ["a.JPG"], ⟨[1], 0, true⟩),
    (STAGING_PATH ++ ["b.JPG"], ⟨[9], 0, true⟩),
    (STAGING_PATH ++ ["c.JPG"], ⟨[2], 0, true⟩)]⟩

/-- Environment with exiftool absent and everything else benign. -/
def env6 : Env := ⟨false, fun _ => true, fun bs => bs⟩

/-- Environment with every tool available and working. -/
def envOk : Env := ⟨true, fun _ => true, fun bs => bs⟩

/-- The first camera DCIM folder used in the concrete scenarios. -/
def camFolder1 : FPath := CAMERA_PATH ++ ["102_FUJI"]

/-- World for the missing-exiftool run: two staging files, a mounted camera
with one DCIM folder, one finalized photo. -/
def finW6 : World :=
  ⟨[STAGING_PATH, FINAL_PATH, CAMERA_PATH, camFolder1],
   [(STAGING_PATH ++ ["a.JPG"], ⟨[1], 0, true⟩),
    (STAGING_PATH ++ ["b.JPG"], ⟨[2], 0, true⟩),
    (FINAL_PATH ++ ["c.JPG"], ⟨[3], 0, true⟩)]⟩

/-- World for the import counterexample: the camera holds `IMG_001.MOV` whose
stem is already finalized as `IMG_001.JPG`. -/
def importW8 : World :=
  ⟨[CAMERA_PATH, camFolder1, FINAL_PATH, SSD_PATH],
   [(camFolder1 ++ ["IMG_001.MOV"], ⟨[4], 0, true⟩),
    (FINAL_PATH ++ ["IMG_001.JPG"], ⟨[5], 0, true⟩)]⟩

/-- World for the deletion-invariant counterexample: the camera holds
`IMG_001.RAF` whose stem is finalized; staging is empty. -/
def delW2 : World :=
  ⟨[STAGING_PATH, FINAL_PATH, CAMERA_PATH, camFolder1],
   [(camFolder1 ++ ["IMG_001.RAF"], ⟨[5], 0, true⟩),
    (FINAL_PATH ++ ["IMG_001.JPG"], ⟨[6], 0, true⟩)]⟩

/-- Sample world for concrete witnesses: one readable source file. -/
def sampleW : World :=
  ⟨[], [(["src", "a.JPG"], ⟨[1, 2], 3, true⟩)]⟩

/-- Sample file system with a readable and an unreadable file of equal size. -/
def sampleFSerr : FS :=
  [(["s", "x"], ⟨[1, 2], 3, true⟩), (["s", "y"], ⟨[4, 5], 3, false⟩)]

/-- Sample file system for the stale-cache witness, before the content change. -/
def staleFS1 : FS := [(["p"], ⟨[1, 2, 3], 5, true⟩)]

/-- Sample file system for the stale-cache witness, after a content change at
`p` that preserves size and mtime, plus a byte-identical second file. -/
def staleFS2 : FS :=
  [(["p"], ⟨[7, 8, 9], 5, true⟩), (["q"], ⟨[7, 8, 9], 6, true⟩)]

/-! Lemmas about the hash cache and `get_file_hash`. -/

theorem append_ne_empty_of_left (s t : String) (h : 0 < s.length) : s ++ t ≠ "" := by
  intro he
  have hl := congrArg String.length he
  rw [String.length_append] at hl
  rw [show ("" : String).length = 0 from rfl] at hl
  omega

/-- One cache extends another when it preserves every stored digest. -/
def cacheExt (c c2 : Cache) : Prop :=
  ∀ k v, lookupCache c k = some v → lookupCache c2 k = some v

theorem cacheExt_refl (c : Cache) : cacheExt c c := fun _ _ h => h

theorem cacheExt_trans {a b c : Cache} (h1 : cacheExt a b) (h2 : cacheExt b c) :
    cacheExt a c :=
  fun k v h => h2 k v (h1 k v h)

theorem lookupCache_insert (c : Cache) (k : HashKey) (v : List Nat) (k2 : HashKey) :
    lookupCache (insertCache c k v) k2 = if k = k2 then some v else lookupCache c k2 := rfl

theorem cacheExt_insert (c : Cache) (k : HashKey) (v : List Nat)
    (hmiss : lookupCache c k = none) : cacheExt c (insertCache c k v) := by
  intro k2 v2 h
  rw [lookupCache_insert]
  split
  · next heq => rw [heq] at hmiss; rw [hmiss] at h; cases h
  · exact h

/-- Complete case analysis of `get_file_hash`: either an error with untouched
cache, a cache hit, or a computed-and-cached digest of the selected bytes. -/
theorem gfh_spec (fs : FS) (c : Cache) (p : FPath) (pf : Bool) :
    (∃ msg, get_file_hash fs c p pf = ⟨[], msg, c, false⟩ ∧ msg ≠ "") ∨
    (∃ f h, lookupFile fs p = some f ∧
       lookupCache c (p, f.content.length, f.mtime, pf) = some h ∧
       get_file_hash fs c p pf = ⟨h, "", c, false⟩) ∨
    (∃ f, lookupFile fs p = some f ∧
       lookupCache c (p, f.content.length, f.mtime, pf) = none ∧ f.readable = true ∧
       get_file_hash fs c p pf =
         ⟨hashedBytes f.content.length f.content pf, "",
          insertCache c (p, f.content.length, f.mtime, pf)
            (hashedBytes f.content.length f.content pf), true⟩) := by
  cases hp : lookupFile fs p with
  | none =>
    refine Or.inl ⟨"Error generating hash for " ++ pathStr p, ?_, ?_⟩
    · unfold get_file_hash
      rw [hp]
    · exact append_ne_empty_of_left _ _ (by decide)
  | some f =>
    cases hc : lookupCache c (p, f.content.length, f.mtime, pf) with
    | some h =>
      refine Or.inr (Or.inl ⟨f, h, rfl, hc, ?_⟩)
      unfold get_file_hash
      rw [hp]
      simp only [hc]
    | none =>
      cases hr : f.readable with
      | true =>
        refine Or.inr (Or.inr ⟨f, rfl, hc, hr, ?_⟩)
        unfold get_file_hash
        rw [hp]
        simp only [hc, hr, if_true]
      | false =>
        refine Or.inl ⟨"Error generating hash for " ++ pathStr p, ?_, ?_⟩
        · unfold get_file_hash
          rw [hp]
          simp [hc, hr]
        · exact append_ne_empty_of_left _ _ (by decide)

theorem gfh_cacheExt (fs : FS) (c : Cache) (p : FPath) (pf : Bool) :
    cacheExt c (get_file_hash fs c p pf).cache := by
  rcases gfh_spec fs c p pf with ⟨msg, he, _⟩ | ⟨f, h, _, _, he⟩ | ⟨f, _, hc, _, he⟩
  · rw [he]; exact cacheExt_refl c
  · rw [he]; exact cacheExt_refl c
  · rw [he]; exact cacheExt_insert c _ _ hc

/-- After an error-free call, the digest is stored in the returned cache under
the observed `(path, size, mtime, partial)` key. -/
theorem gfh_ok_key (fs : FS) (c : Cache) (p : FPath) (pf : Bool)
    (h : (get_file_hash fs c p pf).error = "") :
    ∃ f, lookupFile fs p = some f ∧
      lookupCache (get_file_hash fs c p pf).cache (p, f.content.length, f.mtime, pf) =
        some (get_file_hash fs c p pf).hash := by
  rcases gfh_spec fs c p pf with ⟨msg, he, hne⟩ | ⟨f, hh, hp, hc, he⟩ | ⟨f, hp, hc, hr, he⟩
  · rw [he] at h; exact absurd h hne
  · exact ⟨f, hp, by rw [he]; exact hc⟩
  · refine ⟨f, hp, ?_⟩
    rw [he]
    simp [lookupCache_insert]

/-- A call whose key is already cached is a pure cache hit. -/
theorem gfh_hit (fs : FS) (c : Cache) (p : FPath) (pf : Bool) (f : File) (h : List Nat)
    (hp : lookupFile fs p = some f)
    (hc : lookupCache c (p, f.content.length, f.mtime, pf) = some h) :
    get_file_hash fs c p pf = ⟨h, "", c, false⟩ := by
  unfold get_file_hash
  rw [hp]
  simp only [hc]

/-- Determinism of an error-free `get_file_hash` under any extension of the
returned cache: the call becomes a hit returning the same digest. -/
theorem gfh_stable (fs : FS) (c : Cache) (p : FPath) (pf : Bool)
    (h : (get_file_hash fs c p pf).error = "") (c2 : Cache)
    (hext : cacheExt (get_file_hash fs c p pf).cache c2) :
    get_file_hash fs c2 p pf = ⟨(get_file_hash fs c p pf).hash, "", c2, false⟩ := by
  obtain ⟨f, hp, hc⟩ := gfh_ok_key fs c p pf h
  exact gfh_hit fs c2 p pf f _ hp (hext _ _ hc)

/-- Complete case analysis of `is_duplicate`, one disjunct per return path of
the source: missing destination, source stat failure, size mismatch, source
hash error, destination hash error, digest comparison. -/
theorem isdup_spec (fs : FS) (c : Cache) (s d : FPath) :
    (lookupFile fs d = none ∧ is_duplicate fs c s d = ⟨false, "", c, 0⟩) ∨
    (∃ df, lookupFile fs d = some df ∧ lookupFile fs s = none ∧
       is_duplicate fs c s d =
         ⟨false, "Error comparing file sizes: " ++ pathStr s, c, 0⟩) ∨
    (∃ sf df, lookupFile fs s = some sf ∧ lookupFile fs d = some df ∧
       sf.content.length ≠ df.content.length ∧
       is_duplicate fs c s d = ⟨false, "", c, 0⟩) ∨
    (∃ sf df, lookupFile fs s = some sf ∧ lookupFile fs d = some df ∧
       sf.content.length = df.content.length ∧
       (get_file_hash fs c s true).error ≠ "" ∧
       is_duplicate fs c s d =
         ⟨false, (get_file_hash fs c s true).error, (get_file_hash fs c s true).cache, 0⟩) ∨
    (∃ sf df, lookupFile fs s = some sf ∧ lookupFile fs d = some df ∧
       sf.content.length = df.content.length ∧
       (get_file_hash fs c s true).error = "" ∧
       (get_file_hash fs (get_file_hash fs c s true).cache d true).error ≠ "" ∧
       is_duplicate fs c s d =
         ⟨false, (get_file_hash fs (get_file_hash fs c s true).cache d true).error,
          (get_file_hash fs (get_file_hash fs c s true).cache d true).cache,
          if (get_file_hash fs c s true).computed then 1 else 0⟩) ∨
    (∃ sf df, lookupFile fs s = some sf ∧ lookupFile fs d = some df ∧
       sf.content.length = df.content.length ∧
       (get_file_hash fs c s true).error = "" ∧
       (get_file_hash fs (get_file_hash fs c s true).cache d true).error = "" ∧
       is_duplicate fs c s d =
         ⟨(get_file_hash fs c s true).hash ==
            (get_file_hash fs (get_file_hash fs c s true).cache d true).hash, "",
          (get_file_hash fs (get_file_hash fs c s true).cache d true).cache,
          (if (get_file_hash fs c s true).computed then 1 else 0) +
            (if (get_file_hash fs (get_file_hash fs c s true).cache d true).computed
              then 1 else 0)⟩) := by
  cases hd : lookupFile fs d with
  | none =>
    refine Or.inl ⟨rfl, ?_⟩
    unfold is_duplicate
    simp only [hd]
  | some df =>
    cases hs : lookupFile fs s with
    | none =>
      refine Or.inr (Or.inl ⟨df, rfl, rfl, ?_⟩)
      unfold is_duplicate
      simp only [hd, hs]
    | some sf =>
      by_cases hsz : sf.content.length = df.content.length
      · by_cases hse : (get_file_hash fs c s true).error = ""
        · by_cases hde : (get_file_hash fs (get_file_hash fs c s true).cache d true).error = ""
          · refine Or.inr (Or.inr (Or.inr (Or.inr (Or.inr ⟨sf, df, rfl, rfl, hsz, hse, hde, ?_⟩))))
            unfold is_duplicate
            simp only [hd, hs, if_neg (not_ne_iff.mpr hsz), if_neg (not_ne_iff.mpr hse),
              if_neg (not_ne_iff.mpr hde)]
          · refine Or.inr (Or.inr (Or.inr (Or.inr (Or.inl ⟨sf, df, rfl, rfl, hsz, hse, hde, ?_⟩))))
            unfold is_duplicate
            simp only [hd, hs, if_neg (not_ne_iff.mpr hsz), if_neg (not_ne_iff.mpr hse),
              if_pos hde]
        · refine Or.inr (Or.inr (Or.inr (Or.inl ⟨sf, df, rfl, rfl, hsz, hse, ?_⟩)))
          unfold is_duplicate
          simp only [hd, hs, if_neg (not_ne_iff.mpr hsz), if_pos hse]
      · refine Or.inr (Or.inr (Or.inl ⟨sf, df, rfl, rfl, hsz, ?_⟩))
        unfold is_duplicate
        simp only [hd, hs, if_pos hsz]

theorem isDup_cacheExt (fs : FS) (c : Cache) (s d : FPath) :
    cacheExt c (is_duplicate fs c s d).cache := by
  rcases isdup_spec fs c s d with ⟨_, he⟩ | ⟨df, _, _, he⟩ | ⟨sf, df, _, _, _, he⟩ |
    ⟨sf, df, _, _, _, _, he⟩ | ⟨sf, df, _, _, _, _, _, he⟩ | ⟨sf, df, _, _, _, _, _, he⟩
  · rw [he]; exact cacheExt_refl c
  · rw [he]; exact cacheExt_refl c
  · rw [he]; exact cacheExt_refl c
  · rw [he]; exact gfh_cacheExt fs c s true
  · rw [he]
    exact cacheExt_trans (gfh_cacheExt fs c s true)
      (gfh_cacheExt fs (get_file_hash fs c s true).cache d true)
  · rw [he]
    exact cacheExt_trans (gfh_cacheExt fs c s true)
      (gfh_cacheExt fs (get_file_hash fs c s true).cache d true)

/-- A positive duplicate verdict is stable: re-running `is_duplicate` on the
same file system with any extension of the returned cache returns true again,
with no error, no cache growth, and no file bytes read. -/
theorem isDup_true_stable (fs : FS) (c : Cache) (s d : FPath)
    (h : (is_duplicate fs c s d).isDup = true) (c2 : Cache)
    (hext : cacheExt (is_duplicate fs c s d).cache c2) :
    is_duplicate fs c2 s d = ⟨true, "", c2, 0⟩ := by
  rcases isdup_spec fs c s d with ⟨_, he⟩ | ⟨df, _, _, he⟩ | ⟨sf, df, _, _, _, he⟩ |
    ⟨sf, df, _, _, _, _, he⟩ | ⟨sf, df, _, _, _, _, _, he⟩ |
    ⟨sf, df, hs, hd, hsz, hse, hde, he⟩
  · rw [he] at h; cases h
  · rw [he] at h; cases h
  · rw [he] at h; cases h
  · rw [he] at h; cases h
  · rw [he] at h; cases h
  · rw [he] at hext
    have hext1 : cacheExt (get_file_hash fs c s true).cache c2 :=
      cacheExt_trans (gfh_cacheExt fs (get_file_hash fs c s true).cache d true) hext
    have hsrc := gfh_stable fs c s true hse c2 hext1
    have hdst := gfh_stable fs (get_file_hash fs c s true).cache d true hde c2 hext
    have hhash : ((get_file_hash fs c s true).hash ==
        (get_file_hash fs (get_file_hash fs c s true).cache d true).hash) = true := by
      rw [he] at h; exact h
    unfold is_duplicate
    simp only [hd, hs, if_neg (not_ne_iff.mpr hsz), hsrc, hdst]
    simp [hhash]

/-! Lemmas about `safe_copy`. -/

theorem isDup_true_dst_exists (fs : FS) (c : Cache) (s d : FPath)
    (h : (is_duplicate fs c s d).isDup = true) : ∃ df, lookupFile fs d = some df := by
  rcases isdup_spec fs c s d with ⟨_, he⟩ | ⟨df, hd, _, _⟩ | ⟨sf, df, _, hd, _, _⟩ |
    ⟨sf, df, _, hd, _, _, _⟩ | ⟨sf, df, _, hd, _, _, _, _⟩ | ⟨sf, df, _, hd, _, _, _, _⟩
  · rw [he] at h; cases h
  · exact ⟨df, hd⟩
  · exact ⟨df, hd⟩
  · exact ⟨df, hd⟩
  · exact ⟨df, hd⟩
  · exact ⟨df, hd⟩

theorem mkdirs_dirs_mem (w : World) (dd : FPath) (q : FPath) (hq : q ∈ ancestorsOf dd) :
    q ∈ (mkdirs w dd).dirs := by
  unfold mkdirs
  simp only [List.mem_append, List.mem_filter]
  by_cases hw : q ∈ w.dirs
  · exact Or.inr hw
  · exact Or.inl ⟨hq, by simpa using hw⟩

theorem mkdirs_eq_of_mem (w : World) (dd : FPath)
    (h : ∀ q ∈ ancestorsOf dd, q ∈ w.dirs) : mkdirs w dd = w := by
  unfold mkdirs
  have hnil : (ancestorsOf dd).filter (fun q => ¬ q ∈ w.dirs) = [] := by
    rw [List.filter_eq_nil_iff]
    intro q hq
    simp [h q hq]
  rw [hnil]
  rfl

theorem transfer_world_dirs (w : World) (c : Cache) (s d : FPath) :
    (safe_copy_transfer w c s d).world.dirs = w.dirs := by
  unfold safe_copy_transfer copyFile
  cases hs : lookupFile w.files s with
  | none => rfl
  | some f =>
    cases hr : f.readable with
    | false => simp [hs, hr]
    | true =>
      simp only [hs, hr, if_true]
      split
      · rfl
      · split
        · rfl
        · rfl

theorem safe_copy_world_dirs (w : World) (c : Cache) (s d : FPath) :
    (safe_copy w c s d).world.dirs = (mkdirs w (parentOf d)).dirs := by
  unfold safe_copy
  cases hdst : lookupFile (mkdirs w (parentOf d)).files d with
  | none =>
    simp only [hdst]
    exact transfer_world_dirs _ _ _ _
  | some df =>
    simp only [hdst]
    split
    · rfl
    · split
      · rfl
      · exact transfer_world_dirs _ _ _ _

/-- Success of the copy-and-verify tail implies that re-running
`is_duplicate` on the resulting state confirms identity. -/
theorem transfer_success_isDup (w : World) (c : Cache) (s d : FPath)
    (h : (safe_copy_transfer w c s d).success = true) :
    is_duplicate (safe_copy_transfer w c s d).world.files (safe_copy_transfer w c s d).cache s d
      = ⟨true, "", (safe_copy_transfer w c s d).cache, 0⟩ := by
  unfold safe_copy_transfer at h ⊢
  cases hc : copyFile w s d with
  | none => simp only [hc] at h; cases h
  | some w2 =>
    simp only [hc] at h ⊢
    by_cases he : (is_duplicate w2.files c s d).error = ""
    · by_cases hdup : (is_duplicate w2.files c s d).isDup = true
      · simp only [if_neg (not_ne_iff.mpr he), if_pos hdup] at h ⊢
        exact isDup_true_stable w2.files c s d hdup _ (cacheExt_refl _)
      · simp only [if_neg (not_ne_iff.mpr he), if_neg hdup] at h
        cases h
    · simp only [if_pos he] at h
      cases h

/-- Success of `safe_copy` implies that re-running `is_duplicate` on the
resulting world and cache confirms identity, without reading any bytes. -/
theorem safe_copy_success_isDup (w : World) (c : Cache) (s d : FPath)
    (h : (safe_copy w c s d).success = true) :
    is_duplicate (safe_copy w c s d).world.files (safe_copy w c s d).cache s d
      = ⟨true, "", (safe_copy w c s d).cache, 0⟩ := by
  unfold safe_copy at h ⊢
  cases hdst : lookupFile (mkdirs w (parentOf d)).files d with
  | none =>
    simp only [hdst] at h ⊢
    exact transfer_success_isDup _ _ _ _ h
  | some df =>
    simp only [hdst] at h ⊢
    by_cases he : (is_duplicate (mkdirs w (parentOf d)).files c s d).error = ""
    · by_cases hdup : (is_duplicate (mkdirs w (parentOf d)).files c s d).isDup = true
      · simp only [if_neg (not_ne_iff.mpr he), if_pos hdup] at h ⊢
        exact isDup_true_stable _ _ _ _ hdup _ (cacheExt_refl _)
      · simp only [if_neg (not_ne_iff.mpr he), if_neg hdup] at h ⊢
        exact transfer_success_isDup _ _ _ _ h
    · simp only [if_pos he] at h
      cases h

/-! Claim theorems about the FileManager layer. -/

/-- C1: for every pair of paths (src, dst), if `FileManager.safe_copy(src,
dst)` returns success, then `FileManager.is_duplicate(src, dst)` evaluated
immediately afterwards (on the resulting file system and hash cache) returns
true with no error: `safe_copy` reports success only when the destination was
already verified identical or post-copy verification confirmed identity, so a
copy that succeeds at the OS level but fails verification is never a success. -/
theorem safe_copy_success_implies_is_duplicate (w : World) (c : Cache) (src dst : FPath)
    (h : (safe_copy w c src dst).success = true) :
    (is_duplicate (safe_copy w c src dst).world.files
        (safe_copy w c src dst).cache src dst).isDup = true ∧
    (is_duplicate (safe_copy w c src dst).world.files
        (safe_copy w c src dst).cache src dst).error = "" := by
  rw [safe_copy_success_isDup w c src dst h]
  exact ⟨rfl, rfl⟩

/-- Witness for C1: a concrete successful copy after which the duplicate check
confirms identity. -/
theorem safe_copy_success_implies_is_duplicate_witness :
    (safe_copy sampleW [] ["src", "a.JPG"] ["dst", "a.JPG"]).success = true ∧
    (is_duplicate (safe_copy sampleW [] ["src", "a.JPG"] ["dst", "a.JPG"]).world.files
        (safe_copy sampleW [] ["src", "a.JPG"] ["dst", "a.JPG"]).cache
        ["src", "a.JPG"] ["dst", "a.JPG"]).isDup = true :=
  ⟨by decide,
   (safe_copy_success_implies_is_duplicate sampleW [] ["src", "a.JPG"] ["dst", "a.JPG"]
      (by decide)).1⟩

/-- C4: `safe_copy` is idempotent: if a first call succeeds and nothing else
changes, a second call with the same arguments succeeds, changes neither the
world nor the cache, and performs no second byte transfer (`copied = false`,
i.e. it short-circuits through duplicate detection). -/
theorem safe_copy_idempotent (w : World) (c : Cache) (src dst : FPath)
    (h : (safe_copy w c src dst).success = true) :
    safe_copy (safe_copy w c src dst).world (safe_copy w c src dst).cache src dst =
      ⟨true, "", (safe_copy w c src dst).world, (safe_copy w c src dst).cache, false⟩ := by
  have hdup := safe_copy_success_isDup w c src dst h
  have hdupT : (is_duplicate (safe_copy w c src dst).world.files
      (safe_copy w c src dst).cache src dst).isDup = true := by rw [hdup]
  obtain ⟨df, hdf⟩ := isDup_true_dst_exists _ _ _ _ hdupT
  have hw : mkdirs (safe_copy w c src dst).world (parentOf dst) =
      (safe_copy w c src dst).world := by
    apply mkdirs_eq_of_mem
    intro q hq
    rw [safe_copy_world_dirs]
    exact mkdirs_dirs_mem w (parentOf dst) q hq
  set r := safe_copy w c src dst with hr
  unfold safe_copy
  simp only [hw, hdf, hdup]
  simp

/-- Witness for C4: a concrete first copy succeeds, and the second call
returns success without copying and with the state unchanged. -/
theorem safe_copy_idempotent_witness :
    (safe_copy sampleW [] ["src", "a.JPG"] ["dst2", "a.JPG"]).success = true ∧
    safe_copy (safe_copy sampleW [] ["src", "a.JPG"] ["dst2", "a.JPG"]).world
        (safe_copy sampleW [] ["src", "a.JPG"] ["dst2", "a.JPG"]).cache
        ["src", "a.JPG"] ["dst2", "a.JPG"] =
      ⟨true, "", (safe_copy sampleW [] ["src", "a.JPG"] ["dst2", "a.JPG"]).world,
       (safe_copy sampleW [] ["src", "a.JPG"] ["dst2", "a.JPG"]).cache, false⟩ :=
  ⟨by decide,
   safe_copy_idempotent sampleW [] ["src", "a.JPG"] ["dst2", "a.JPG"] (by decide)⟩

/-- C5: the error contract of `is_duplicate`: a missing destination returns
false with no error (and touches nothing); two existing files of differing
sizes return false with no error, no cache change and no hash computation;
with equal sizes, a failure of either hash computation surfaces as a non-empty
error rather than a bare "not a duplicate" verdict. -/
theorem is_duplicate_error_contract (fs : FS) (c : Cache) (src dst : FPath) :
    (lookupFile fs dst = none → is_duplicate fs c src dst = ⟨false, "", c, 0⟩) ∧
    (∀ sf df, lookupFile fs src = some sf → lookupFile fs dst = some df →
      sf.content.length ≠ df.content.length →
      is_duplicate fs c src dst = ⟨false, "", c, 0⟩) ∧
    (∀ sf df, lookupFile fs src = some sf → lookupFile fs dst = some df →
      sf.content.length = df.content.length →
      ((get_file_hash fs c src true).error ≠ "" ∨
        ((get_file_hash fs c src true).error = "" ∧
          (get_file_hash fs (get_file_hash fs c src true).cache dst true).error ≠ "")) →
      (is_duplicate fs c src dst).error ≠ "") := by
  refine ⟨?_, ?_, ?_⟩
  · intro hd
    unfold is_duplicate
    simp only [hd]
  · intro sf df hs hd hsz
    unfold is_duplicate
    simp only [hd, hs, if_pos hsz]
  · intro sf df hs hd hsz herr
    unfold is_duplicate
    rcases herr with hse | ⟨hse, hde⟩
    · simp only [hd, hs, if_neg (not_ne_iff.mpr hsz), if_pos hse]
      exact hse
    · simp only [hd, hs, if_neg (not_ne_iff.mpr hsz), if_neg (not_ne_iff.mpr hse),
        if_pos hde]
      exact hde

/-- Witness for C5: the three parts at concrete inputs — a missing
destination, a size mismatch, and an unreadable destination file of equal
size whose hash error is surfaced. -/
theorem is_duplicate_error_contract_witness :
    is_duplicate sampleFSerr [] ["s", "x"] ["s", "z"] = ⟨false, "", [], 0⟩ ∧
    is_duplicate [(["s", "x"], ⟨[1, 2], 3, true⟩), (["s", "w"], ⟨[1], 3, true⟩)] []
        ["s", "x"] ["s", "w"] = ⟨false, "", [], 0⟩ ∧
    (is_duplicate sampleFSerr [] ["s", "x"] ["s", "y"]).error ≠ "" := by
  refine ⟨?_, ?_, ?_⟩
  · exact (is_duplicate_error_contract sampleFSerr [] ["s", "x"] ["s", "z"]).1 (by decide)
  · exact (is_duplicate_error_contract _ [] ["s", "x"] ["s", "w"]).2.1
      ⟨[1, 2], 3, true⟩ ⟨[1], 3, true⟩ (by decide) (by decide) (by decide)
  · exact (is_duplicate_error_contract sampleFSerr [] ["s", "x"] ["s", "y"]).2.2
      ⟨[1, 2], 3, true⟩ ⟨[4, 5], 3, false⟩ (by decide) (by decide) (by decide)
      (Or.inr ⟨by decide, by decide⟩)

/-- C9: for a readable file whose size is at most the 10 MiB threshold (and
whose digest is not yet cached under either scope), `get_file_hash` with
`partial=true` returns the same digest as with `partial=false` — both hash the
entire byte stream; only for a file strictly larger than the threshold does
partial hashing restrict the digest to the first 1 MiB and the bytes from
offset `max(size - 1 MiB, 0)` to the end. -/
theorem get_file_hash_partial_full_agree (fs : FS) (c : Cache) (p : FPath) (f : File)
    (hp : lookupFile fs p = some f) (hr : f.readable = true)
    (h1 : lookupCache c (p, f.content.length, f.mtime, true) = none)
    (h0 : lookupCache c (p, f.content.length, f.mtime, false) = none) :
    (f.content.length ≤ hashLimit →
      (get_file_hash fs c p true).hash = (get_file_hash fs c p false).hash ∧
      (get_file_hash fs c p true).hash = f.content ∧
      (get_file_hash fs c p true).error = "" ∧
      (get_file_hash fs c p false).error = "") ∧
    (hashLimit < f.content.length →
      (get_file_hash fs c p true).hash =
        f.content.take MB ++ f.content.drop (max (f.content.length - MB) 0)) := by
  have e1 : get_file_hash fs c p true =
      ⟨hashedBytes f.content.length f.content true, "",
       insertCache c (p, f.content.length, f.mtime, true)
         (hashedBytes f.content.length f.content true), true⟩ := by
    unfold get_file_hash
    rw [hp]
    simp only [h1, hr, if_true]
  have e0 : get_file_hash fs c p false =
      ⟨hashedBytes f.content.length f.content false, "",
       insertCache c (p, f.content.length, f.mtime, false)
         (hashedBytes f.content.length f.content false), true⟩ := by
    unfold get_file_hash
    rw [hp]
    simp only [h0, hr, if_true]
  constructor
  · intro hle
    have hbt : hashedBytes f.content.length f.content true = f.content := by
      unfold hashedBytes
      rw [if_pos (Or.inr hle)]
    have hbf : hashedBytes f.content.length f.content false = f.content := by
      unfold hashedBytes
      rw [if_pos (Or.inl rfl)]
    rw [e1, e0]
    exact ⟨by simp [hbt, hbf], by simp [hbt], rfl, rfl⟩
  · intro hgt
    have hbt : hashedBytes f.content.length f.content true =
        f.content.take MB ++ f.content.drop (max (f.content.length - MB) 0) := by
      unfold hashedBytes
      rw [if_neg]
      intro hor
      rcases hor with hfalse | hle
      · cases hfalse
      · omega
    rw [e1]
    exact hbt

/-- Witness for C9: a concrete small readable file on which the partial and
full digests agree and equal the whole content. -/
theorem get_file_hash_partial_full_agree_witness :
    (get_file_hash staleFS1 [] ["p"] true).hash = (get_file_hash staleFS1 [] ["p"] false).hash ∧
    (get_file_hash staleFS1 [] ["p"] true).hash = [1, 2, 3] :=
  ⟨((get_file_hash_partial_full_agree staleFS1 [] ["p"] ⟨[1, 2, 3], 5, true⟩
      (by decide) (by decide) (by decide) (by decide)).1 (by decide)).1,
   ((get_file_hash_partial_full_agree staleFS1 [] ["p"] ⟨[1, 2, 3], 5, true⟩
      (by decide) (by decide) (by decide) (by decide)).1 (by decide)).2.1⟩

/-- C10: the implicit cache invariant: once `get_file_hash` has returned a
digest without error, any later call whose observed key (path, size, mtime,
partial flag) is equal — even on a file system where the file's content has
changed but size and mtime are preserved — returns the cached digest without
reading the file (`computed = false`); consequently `is_duplicate` of such a
file against any equal-sized destination bases its verdict on the stale cached
digest rather than on the current bytes. -/
theorem get_file_hash_cache_stale (fs : FS) (c : Cache) (p : FPath) (pf : Bool) (f : File)
    (hp : lookupFile fs p = some f)
    (hok : (get_file_hash fs c p pf).error = "")
    (fs2 : FS) (f2 : File) (hp2 : lookupFile fs2 p = some f2)
    (hsz : f2.content.length = f.content.length) (hmt : f2.mtime = f.mtime) :
    (get_file_hash fs2 (get_file_hash fs c p pf).cache p pf =
      ⟨(get_file_hash fs c p pf).hash, "", (get_file_hash fs c p pf).cache, false⟩) ∧
    (∀ dst df, pf = true → lookupFile fs2 dst = some df →
      df.content.length = f2.content.length →
      (get_file_hash fs2 (get_file_hash fs c p pf).cache dst true).error = "" →
      (is_duplicate fs2 (get_file_hash fs c p pf).cache p dst).isDup =
        ((get_file_hash fs c p pf).hash ==
          (get_file_hash fs2 (get_file_hash fs c p pf).cache dst true).hash) ∧
      (is_duplicate fs2 (get_file_hash fs c p pf).cache p dst).error = "") := by
  obtain ⟨f', hp', hkey⟩ := gfh_ok_key fs c p pf hok
  rw [hp] at hp'
  cases hp'
  have hhit : get_file_hash fs2 (get_file_hash fs c p pf).cache p pf =
      ⟨(get_file_hash fs c p pf).hash, "", (get_file_hash fs c p pf).cache, false⟩ := by
    apply gfh_hit fs2 _ p pf f2 _ hp2
    rw [hsz, hmt]
    exact hkey
  refine ⟨hhit, ?_⟩
  intro dst df hpf hdst hdl hde
  subst hpf
  refine ⟨?_, ?_⟩ <;>
    simp [is_duplicate, hdst, hp2, hhit, hdl, hde]

/-- Witness for C10: the digest of `p` is computed on the original content
`[1,2,3]`; after the content silently changes to `[7,8,9]` (same size and
mtime) the cached digest is returned unchanged, and `is_duplicate` against a
byte-identical file `q` wrongly answers false, from the stale digest. -/
theorem get_file_hash_cache_stale_witness :
    (get_file_hash staleFS2 (get_file_hash staleFS1 [] ["p"] true).cache ["p"] true =
      ⟨[1, 2, 3], "", (get_file_hash staleFS1 [] ["p"] true).cache, false⟩) ∧
    (is_duplicate staleFS2 (get_file_hash staleFS1 [] ["p"] true).cache
        ["p"] ["q"]).isDup = false := by
  have H := get_file_hash_cache_stale staleFS1 [] ["p"] true ⟨[1, 2, 3], 5, true⟩
    (by decide) (by decide) staleFS2 ⟨[7, 8, 9], 5, true⟩ (by decide) (by decide) (by decide)
  constructor
  · exact H.1
  · have H2 := H.2 ["q"] ⟨[7, 8, 9], 6, true⟩ rfl (by decide) (by decide) (by decide)
    rw [H2.1]
    decide

/-! Support lemmas about the world, `_process_files` and traces. -/

theorem lookupFile_insertFile (fs : FS) (p : FPath) (f : File) (q : FPath) :
    lookupFile (insertFile fs p f) q = if p = q then some f else lookupFile fs q := by
  induction fs with
  | nil => rfl
  | cons e rest ih =>
    obtain ⟨k, g⟩ := e
    by_cases hk : k = p
    · subst hk
      have h1 : insertFile ((k, g) :: rest) k f = (k, f) :: rest := by
        simp [insertFile]
      rw [h1]
      by_cases hq : k = q
      · subst hq
        simp [lookupFile]
      · simp [lookupFile, hq]
    · have h1 : insertFile ((k, g) :: rest) p f = (k, g) :: insertFile rest p f := by
        simp [insertFile, hk]
      rw [h1]
      by_cases hq : k = q
      · subst hq
        have hpk : ¬ p = k := fun h => hk h.symm
        simp [lookupFile, hpk]
      · simp [lookupFile, hq, ih]

theorem lookupFile_removeFile (fs : FS) (p q : FPath) :
    lookupFile (removeFile fs p) q = if q = p then none else lookupFile fs q := by
  induction fs with
  | nil => simp [removeFile, lookupFile]
  | cons e rest ih =>
    obtain ⟨k, g⟩ := e
    by_cases hk : k = p
    · subst hk
      have h1 : removeFile ((k, g) :: rest) k = removeFile rest k := by
        simp [removeFile]
      rw [h1, ih]
      by_cases hq : q = k
      · subst hq; simp
      · simp only [lookupFile, if_neg hq, if_neg (fun h : k = q => hq h.symm)]
    · have h1 : removeFile ((k, g) :: rest) p = (k, g) :: removeFile rest p := by
        simp [removeFile, List.filter_cons, hk]
      rw [h1]
      by_cases hq : k = q
      · subst hq
        simp [lookupFile, hk]
      · simp [lookupFile, hq, ih]

theorem lookupFile_isSome_of_mem (fs : FS) (p : FPath) (f : File)
    (h : (p, f) ∈ fs) : (lookupFile fs p).isSome = true := by
  induction fs with
  | nil => cases h
  | cons e rest ih =>
    obtain ⟨k, g⟩ := e
    rcases List.mem_cons.mp h with he | hrest
    · cases he
      simp [lookupFile]
    · by_cases hk : k = p
      · simp [lookupFile, hk]
      · simp only [lookupFile, if_neg hk]
        exact ih hrest

theorem transfer_files_other (w : World) (c : Cache) (s d q : FPath) (hq : q ≠ d) :
    lookupFile (safe_copy_transfer w c s d).world.files q = lookupFile w.files q := by
  unfold safe_copy_transfer copyFile
  cases hs : lookupFile w.files s with
  | none => rfl
  | some f =>
    cases hr : f.readable with
    | false => simp [hs, hr]
    | true =>
      simp only [hs, hr, if_true]
      have hins : lookupFile (insertFile w.files d ⟨f.content, f.mtime, true⟩) q =
          lookupFile w.files q := by
        rw [lookupFile_insertFile, if_neg (fun h => hq h.symm)]
      split
      · exact hins
      · split
        · exact hins
        · exact hins

theorem safe_copy_files_other (w : World) (c : Cache) (s d q : FPath) (hq : q ≠ d) :
    lookupFile (safe_copy w c s d).world.files q = lookupFile w.files q := by
  unfold safe_copy
  cases hdst : lookupFile (mkdirs w (parentOf d)).files d with
  | none =>
    simp only [hdst]
    exact transfer_files_other _ _ _ _ _ hq
  | some df =>
    simp only [hdst]
    split
    · rfl
    · split
      · rfl
      · exact transfer_files_other _ _ _ _ _ hq

theorem unlink_files (w : World) (p : FPath) (w2 : World) (h : unlink w p = some w2) :
    w2 = { w with files := removeFile w.files p } := by
  unfold unlink at h
  cases hl : lookupFile w.files p with
  | none => rw [hl] at h; cases h
  | some f =>
    rw [hl] at h
    cases h
    rfl

theorem append_singleton_ne (a b : FPath) (x y : String)
    (hlen : a.length = b.length) (hne : a ≠ b) : a ++ [x] ≠ b ++ [y] := by
  intro he
  exact hne (List.append_inj_left he hlen)

/-- `_process_files` never creates a file at a path distinct from every
`destination / file.name` of its input list. -/
theorem process_files_no_new (dest : FPath) (dry del : Bool) (files : List FPath) :
    ∀ w c q, lookupFile w.files q = none → (∀ fp ∈ files, q ≠ dest ++ [fileName fp]) →
      lookupFile (process_files dest dry del files w c).world.files q = none := by
  induction files with
  | nil => intro w c q hq _; exact hq
  | cons fp rest ih =>
    intro w c q hq hne
    have hqd : q ≠ dest ++ [fileName fp] := hne fp (List.mem_cons_self fp rest)
    have hrest : ∀ g ∈ rest, q ≠ dest ++ [fileName g] :=
      fun g hg => hne g (List.mem_cons_of_mem fp hg)
    have hsc : lookupFile (safe_copy w (is_duplicate w.files c fp
        (dest ++ [fileName fp])).cache fp (dest ++ [fileName fp])).world.files q = none := by
      rw [safe_copy_files_other _ _ _ _ _ hqd]
      exact hq
    unfold process_files
    dsimp only
    split
    · exact ih w c q hq hrest
    · split
      · exact ih _ _ _ hq hrest
      · split
        · exact ih _ _ _ hq hrest
        · split
          · split
            · split
              · next w2 hw2 =>
                refine ih _ _ _ ?_ hrest
                rw [unlink_files _ _ _ hw2]
                simp only
                rw [lookupFile_removeFile]
                split
                · rfl
                · exact hsc
              · exact ih _ _ _ hsc hrest
            · exact ih _ _ _ hsc hrest
          · exact ih _ _ _ hsc hrest

/-- Trace concatenation preserves deletion-verification when the second trace
is verified under every `seen` prefix. -/
theorem dv_append (t1 t2 : List Ev) :
    ∀ seen, deletionsVerified seen t1 = true → (∀ s, deletionsVerified s t2 = true) →
      deletionsVerified seen (t1 ++ t2) = true := by
  induction t1 with
  | nil => intro seen _ h2; exact h2 seen
  | cons e rest ih =>
    intro seen h1 h2
    cases e with
    | copied s d ok =>
      simp only [List.cons_append, deletionsVerified] at h1 ⊢
      exact ih _ h1 h2
    | deleted p =>
      simp only [List.cons_append, deletionsVerified, Bool.and_eq_true] at h1 ⊢
      exact ⟨h1.1, ih _ h1.2 h2⟩

/-- Every trace produced by `_process_files` verifies its deletions: a
`deleted fp` event is always immediately preceded by `copied fp dst true`. -/
theorem process_files_trace_verified (dest : FPath) (dry del : Bool) (files : List FPath) :
    ∀ w c seen, deletionsVerified seen (process_files dest dry del files w c).trace = true := by
  induction files with
  | nil => intro w c seen; rfl
  | cons fp rest ih =>
    intro w c seen
    unfold process_files
    dsimp only
    split
    · exact ih _ _ _
    · split
      · exact ih _ _ _
      · split
        · exact ih _ _ _
        · split
          · split
            · split
              · simp only [deletionsVerified, if_pos rfl, Bool.and_eq_true, decide_eq_true_iff]
                exact ⟨List.mem_cons_self _ _, ih _ _ _⟩
              · simp only [deletionsVerified, if_pos rfl]
                exact ih _ _ _
            · simp only [deletionsVerified, if_pos rfl]
              exact ih _ _ _
          · simp only [deletionsVerified]
            exact ih _ _ _

/-! Lemmas for the orphaned-RAW cleanup claims. -/

theorem isDup_true_error (fs : FS) (c : Cache) (s d : FPath)
    (h : (is_duplicate fs c s d).isDup = true) : (is_duplicate fs c s d).error = "" := by
  rcases isdup_spec fs c s d with ⟨_, he⟩ | ⟨df, _, _, he⟩ | ⟨sf, df, _, _, _, he⟩ |
    ⟨sf, df, _, _, _, _, he⟩ | ⟨sf, df, _, _, _, _, _, he⟩ | ⟨sf, df, _, _, _, _, _, he⟩
  · rw [he] at h; cases h
  · rw [he] at h; cases h
  · rw [he] at h; cases h
  · rw [he] at h; cases h
  · rw [he] at h; cases h
  · rw [he]

/-- A file compared with itself is a duplicate, unless hashing it errors. -/
theorem isDup_self (fs : FS) (c : Cache) (p : FPath) (f : File)
    (hp : lookupFile fs p = some f) :
    (is_duplicate fs c p p).isDup = true ∨ (is_duplicate fs c p p).error ≠ "" := by
  unfold is_duplicate
  simp only [hp]
  rw [if_neg (not_ne_iff.mpr rfl)]
  by_cases hse : (get_file_hash fs c p true).error = ""
  · have hstab := gfh_stable fs c p true hse _ (cacheExt_refl _)
    simp only [if_neg (not_ne_iff.mpr hse), hstab]
    left
    simp
  · right
    simp only [if_pos hse]
    exact hse

theorem parent_fileName (l : FPath) (h : l ≠ []) : parentOf l ++ [fileName l] = l := by
  induction l using List.reverseRecOn with
  | nil => cases h rfl
  | append_singleton init a _ =>
    unfold parentOf fileName
    rw [List.dropLast_concat, List.getLastD_concat]

theorem dirFilesWith_shape (fs : FS) (dir : FPath) (pred : String → Bool) (fp : FPath)
    (hdir : dir ≠ []) (h : fp ∈ dirFilesWith fs dir pred) :
    dir ++ [fileName fp] = fp ∧ ∃ f, lookupFile fs fp = some f := by
  unfold dirFilesWith at h
  rw [List.mem_map] at h
  obtain ⟨e, he, rfl⟩ := h
  rw [List.mem_filter] at he
  obtain ⟨hmem, hcond⟩ := he
  have hcond2 : parentOf e.1 = dir := by
    have := of_decide_eq_true hcond
    exact this.1
  have hne : e.1 ≠ [] := by
    intro hnil
    rw [hnil] at hcond2
    exact hdir (hcond2.symm ▸ rfl)
  constructor
  · rw [← hcond2]
    exact parent_fileName e.1 hne
  · have := lookupFile_isSome_of_mem fs e.1 e.2 (by simpa using hmem)
    exact Option.isSome_iff_exists.mp this

/-- When every destination of `_process_files` coincides with its own source
path, every file is classified as duplicate-or-error: nothing is processed,
the world is unchanged and the trace is empty. -/
theorem process_files_self_dest (dest : FPath) (del : Bool) (files : List FPath) :
    ∀ w c, (∀ fp ∈ files, dest ++ [fileName fp] = fp) →
      (∀ fp ∈ files, ∃ f, lookupFile w.files fp = some f) →
      (process_files dest false del files w c).stats.processed = 0 ∧
      (process_files dest false del files w c).world = w ∧
      (process_files dest false del files w c).trace = [] := by
  induction files with
  | nil => intro w c _ _; exact ⟨rfl, rfl, rfl⟩
  | cons fp rest ih =>
    intro w c hself hex
    obtain ⟨f, hf⟩ := hex fp (List.mem_cons_self _ _)
    have hd : dest ++ [fileName fp] = fp := hself fp (List.mem_cons_self _ _)
    have hrest1 : ∀ g ∈ rest, dest ++ [fileName g] = g :=
      fun g hg => hself g (List.mem_cons_of_mem _ hg)
    have hrest2 : ∀ g ∈ rest, ∃ f2, lookupFile w.files g = some f2 :=
      fun g hg => hex g (List.mem_cons_of_mem _ hg)
    unfold process_files
    dsimp only
    rw [hd]
    rcases isDup_self w.files c fp f hf with hdup | herr
    · have hcond : ((lookupFile w.files fp).isSome &&
          (is_duplicate w.files c fp fp).isDup) = true := by
        rw [hf, hdup]
        rfl
      rw [if_neg (not_ne_iff.mpr (isDup_true_error _ _ _ _ hdup)), if_pos hcond]
      exact ih w _ hrest1 hrest2
    · rw [if_pos herr]
      exact ih w _ hrest1 hrest2

/-- C3 (code bug): the non-dry-run RAW cleanup never deletes anything.  Each
orphan's dummy destination is its own path, so `_process_files` classifies it
as an existing identical duplicate (or as a per-file error) and skips it
instead of unlinking it — contradicting the code's own comment that the
originals will be unlinked and the spec's Scenario 2.  In particular, on the
world of Scenario 2 the run reports orphaned=1 but deleted=0, errors=0, and
both RAW files remain in place. -/
theorem cleanup_unused_raws_never_deletes :
    (∀ w c, (cleanup_unused_raws w c false).deleted = 0 ∧
      (cleanup_unused_raws w c false).world = w ∧
      (cleanup_unused_raws w c false).trace = []) ∧
    ((cleanup_unused_raws cleanupW [] false).orphaned = 1 ∧
     (cleanup_unused_raws cleanupW [] false).deleted = 0 ∧
     (cleanup_unused_raws cleanupW [] false).errors = 0 ∧
     lookupFile (cleanup_unused_raws cleanupW [] false).world.files
       (RAWS_PATH ++ ["IMG_002.RAF"]) = some ⟨[2], 0, true⟩ ∧
     lookupFile (cleanup_unused_raws cleanupW [] false).world.files
       (RAWS_PATH ++ ["IMG_001.RAF"]) = some ⟨[1], 0, true⟩) := by
  constructor
  · intro w c
    unfold cleanup_unused_raws
    dsimp only
    split
    · split
      · next hcond =>
        have hsub : ∀ fp ∈ (rawBackupFiles w.files).filter
            (fun q => ¬ stemOf (fileName q) ∈ finalJpgBases w.files),
            fp ∈ rawBackupFiles w.files := by
          intro fp hfp
          exact (List.mem_filter.mp hfp).1
        have h1 : ∀ fp ∈ (rawBackupFiles w.files).filter
            (fun q => ¬ stemOf (fileName q) ∈ finalJpgBases w.files),
            RAWS_PATH ++ [fileName fp] = fp := by
          intro fp hfp
          exact (dirFilesWith_shape w.files RAWS_PATH _ fp (by decide) (hsub fp hfp)).1
        have h2 : ∀ fp ∈ (rawBackupFiles w.files).filter
            (fun q => ¬ stemOf (fileName q) ∈ finalJpgBases w.files),
            ∃ f, lookupFile w.files fp = some f := by
          intro fp hfp
          exact (dirFilesWith_shape w.files RAWS_PATH _ fp (by decide) (hsub fp hfp)).2
        obtain ⟨hp, hw, ht⟩ := process_files_self_dest RAWS_PATH true _ w c h1 h2
        exact ⟨hp, hw, ht⟩
      · exact ⟨rfl, rfl, rfl⟩
    · exact ⟨rfl, rfl, rfl⟩
  · refine ⟨by decide, by decide, by decide, by decide, by decide⟩

/-! Lemmas for the finalize claims. -/

theorem compress_fail_world (env : Env) (w : World) (i o : FPath)
    (h : (compress_jpeg_safe env w i o).1.1 = false) : (compress_jpeg_safe env w i o).2 = w := by
  unfold compress_jpeg_safe at h ⊢
  by_cases he : env.exiftool = false
  · simp [he]
  · simp only [if_neg he] at h ⊢
    cases hl : lookupFile w.files i with
    | none => simp [hl]
    | some f =>
      simp only [hl] at h ⊢
      by_cases hr : f.readable = false
      · simp [hr]
      · simp only [if_neg hr] at h ⊢
        by_cases hd : env.decodable f.content = false
        · simp [hd]
        · simp only [if_neg hd] at h ⊢
          by_cases hv : env.decodable (env.compressOut f.content) = false
          · simp [hv]
          · simp only [if_neg hv] at h
            cases h

/-- The temp-file create/remove pair of one finalize iteration touches no
path outside the single-component temporary names. -/
theorem tmp_world_preserves (w : World) (i : Nat) (q : FPath) (hq : q.length ≠ 1) :
    lookupFile (removeFile (insertFile w.files (tmpName i) ⟨[], 0, true⟩) (tmpName i)) q =
      lookupFile w.files q := by
  have hqt : q ≠ tmpName i := fun h => hq (by rw [h]; rfl)
  rw [lookupFile_removeFile, if_neg hqt, lookupFile_insertFile, if_neg (fun h => hqt h.symm)]

/-- With `exiftool` absent, the promote loop moves and compresses nothing,
classifies every staging file as skipped-duplicate or error, and leaves every
non-temporary path untouched — it does not abort, and the caller's later
phases still run. -/
theorem phase1_no_exiftool (env : Env) (hx : env.exiftool = false) (files : List FPath) :
    ∀ i w c,
      (finalizePhase1 env false files i w c).moved = 0 ∧
      (finalizePhase1 env false files i w c).compressed = 0 ∧
      (finalizePhase1 env false files i w c).skipped +
        (finalizePhase1 env false files i w c).errors = files.length ∧
      (∀ q, q.length ≠ 1 →
        lookupFile (finalizePhase1 env false files i w c).world.files q =
          lookupFile w.files q) := by
  induction files with
  | nil =>
    intro i w c
    exact ⟨rfl, rfl, rfl, fun q _ => rfl⟩
  | cons sf rest ih =>
    intro i w c
    have hcomp : ∀ w1 : World, compress_jpeg_safe env w1 sf (tmpName i) =
        ((false, "exiftool not found. Install with: brew install exiftool"), w1) := by
      intro w1
      unfold compress_jpeg_safe
      rw [if_pos hx]
    unfold finalizePhase1
    dsimp only
    cases hfp : lookupFile w.files (FINAL_PATH ++ [fileName sf]) with
    | none =>
      simp only [hfp, hcomp, Bool.false_eq_true, if_false, if_true, eq_self_iff_true]
      obtain ⟨h1, h2, h3, h4⟩ := ih (i + 1)
        ⟨w.dirs, removeFile (insertFile w.files (tmpName i) ⟨[], 0, true⟩) (tmpName i)⟩ c
      refine ⟨h1, h2, ?_, ?_⟩
      · simp only [List.length_cons]
        omega
      · intro q hq
        rw [h4 q hq]
        exact tmp_world_preserves w i q hq
    | some g =>
      simp only [hfp]
      by_cases hdup : (is_duplicate w.files c sf (FINAL_PATH ++ [fileName sf])).isDup = true
      · simp only [hdup, Bool.false_eq_true, if_false, if_true, eq_self_iff_true]
        obtain ⟨h1, h2, h3, h4⟩ := ih (i + 1) w
          (is_duplicate w.files c sf (FINAL_PATH ++ [fileName sf])).cache
        refine ⟨h1, h2, ?_, h4⟩
        simp only [List.length_cons]
        omega
      · simp only [hdup, hcomp, Bool.false_eq_true, if_false, if_true, eq_self_iff_true]
        obtain ⟨h1, h2, h3, h4⟩ := ih (i + 1)
          ⟨w.dirs, removeFile (insertFile w.files (tmpName i) ⟨[], 0, true⟩) (tmpName i)⟩
          (is_duplicate w.files c sf (FINAL_PATH ++ [fileName sf])).cache
        refine ⟨h1, h2, ?_, ?_⟩
        · simp only [List.length_cons]
          omega
        · intro q hq
          rw [h4 q hq]
          exact tmp_world_preserves w i q hq

theorem compress_success_world (env : Env) (w : World) (i o : FPath)
    (h : (compress_jpeg_safe env w i o).1.1 = true) :
    ∃ f, lookupFile w.files i = some f ∧
      (compress_jpeg_safe env w i o).2 =
        { w with files := insertFile w.files o ⟨env.compressOut f.content, 0, true⟩ } := by
  unfold compress_jpeg_safe at h ⊢
  by_cases he : env.exiftool = false
  · rw [if_pos he] at h; cases h
  · rw [if_neg he] at h ⊢
    cases hl : lookupFile w.files i with
    | none => simp only [hl] at h; cases h
    | some f =>
      simp only [hl] at h ⊢
      by_cases hr : f.readable = false
      · rw [if_pos hr] at h; cases h
      · rw [if_neg hr] at h ⊢
        by_cases hd : env.decodable f.content = false
        · rw [if_pos hd] at h; cases h
        · rw [if_neg hd] at h ⊢
          by_cases hv : env.decodable (env.compressOut f.content) = false
          · rw [if_pos hv] at h; cases h
          · rw [if_neg hv]
            exact ⟨f, rfl, rfl⟩

/-- One finalize iteration whose compression succeeds but whose verified copy
to Final fails: one error, a `copied … false` trace event, the loop continues
on the rest, and the staging original is untouched. -/
theorem phase1_copy_fail_step (env : Env) (sf : FPath) (rest : List FPath) (i : Nat)
    (w : World) (c : Cache)
    (hfp : lookupFile w.files (FINAL_PATH ++ [fileName sf]) = none)
    (hcs : (compress_jpeg_safe env ⟨w.dirs, insertFile w.files (tmpName i) ⟨[], 0, true⟩⟩
        sf (tmpName i)).1.1 = true)
    (hsf : (safe_copy (compress_jpeg_safe env
        ⟨w.dirs, insertFile w.files (tmpName i) ⟨[], 0, true⟩⟩ sf (tmpName i)).2 c
        (tmpName i) (FINAL_PATH ++ [fileName sf])).success = false) :
    (let rc := safe_copy (compress_jpeg_safe env
        ⟨w.dirs, insertFile w.files (tmpName i) ⟨[], 0, true⟩⟩ sf (tmpName i)).2 c
        (tmpName i) (FINAL_PATH ++ [fileName sf])
     let wA : World := ⟨rc.world.dirs, removeFile rc.world.files (tmpName i)⟩
     let r := finalizePhase1 env false rest (i + 1) wA rc.cache
     finalizePhase1 env false (sf :: rest) i w c =
       ⟨r.moved, r.compressed, r.skipped, r.errors + 1, r.world, r.cache,
        Ev.copied (tmpName i) (FINAL_PATH ++ [fileName sf]) false :: r.trace⟩ ∧
     (parentOf sf = STAGING_PATH → lookupFile wA.files sf = lookupFile w.files sf)) := by
  dsimp only
  constructor
  · rw [finalizePhase1]
    dsimp only
    simp only [hfp, Bool.false_eq_true, if_false, if_true, eq_self_iff_true]
    rw [if_neg (by rw [hcs]; simp), if_neg (by rw [hsf]; simp)]
  · intro hps
    have hlen : sf.length = 5 := by
      have h1 := congrArg List.length hps
      unfold parentOf at h1
      rw [List.length_dropLast] at h1
      have h2 : STAGING_PATH.length = 4 := by decide
      rw [h2] at h1
      omega
    have hnt : sf ≠ tmpName i := by
      intro h
      rw [h] at hlen
      have h1 : (tmpName i).length = 1 := rfl
      omega
    have hnf : sf ≠ FINAL_PATH ++ [fileName sf] := by
      intro h
      have h1 := congrArg parentOf h
      rw [hps] at h1
      unfold parentOf at h1
      rw [List.dropLast_concat] at h1
      exact absurd h1 (by decide)
    rw [lookupFile_removeFile, if_neg hnt, safe_copy_files_other _ _ _ _ _ hnf]
    obtain ⟨f, hf, hcw⟩ := compress_success_world env
      ⟨w.dirs, insertFile w.files (tmpName i) ⟨[], 0, true⟩⟩ sf (tmpName i) hcs
    rw [hcw]
    dsimp only
    rw [lookupFile_insertFile, if_neg (fun h => hnt h.symm),
      lookupFile_insertFile, if_neg (fun h => hnt h.symm)]

/-! Claim theorems about the workflow layer. -/

/-- C6 (corrected): the missing-source-directory preconditions do
short-circuit with zero side effects — finalize with no staging directory and
cleanup with no RAW-backup or final directory return all-zero statistics with
the world, cache and trace untouched — but a missing `exiftool` does not: it
surfaces as one compression error per non-skipped staging file while the
promote loop leaves every non-temporary path untouched, and the operation's
remaining phases still run. -/
theorem hard_precondition_shortcircuit_amended :
    (∀ env w c dry, ¬ STAGING_PATH ∈ w.dirs →
      finalize_staging env w c dry = ⟨zeroFin, w, c, []⟩) ∧
    (∀ w c dry, ¬ (RAWS_PATH ∈ w.dirs ∧ FINAL_PATH ∈ w.dirs) →
      cleanup_unused_raws w c dry = ⟨0, 0, 0, w, c, []⟩) ∧
    (∀ env, env.exiftool = false → ∀ files i w c,
      (finalizePhase1 env false files i w c).moved = 0 ∧
      (finalizePhase1 env false files i w c).compressed = 0 ∧
      (finalizePhase1 env false files i w c).skipped +
        (finalizePhase1 env false files i w c).errors = files.length ∧
      (∀ q, q.length ≠ 1 →
        lookupFile (finalizePhase1 env false files i w c).world.files q =
          lookupFile w.files q)) := by
  refine ⟨?_, ?_, ?_⟩
  · intro env w c dry h
    unfold finalize_staging
    rw [if_neg h]
  · intro w c dry h
    unfold cleanup_unused_raws
    rw [if_neg h]
  · intro env hx files i w c
    exact phase1_no_exiftool env hx files i w c

/-- Counterexample to C6 as stated: with `exiftool` absent, two staging files
and a mounted camera, finalize neither short-circuits nor stays side-effect
free nor reports the failure once: it reports two errors (one per file) and
still copies the finalized photo onto the camera. -/
theorem hard_precondition_shortcircuit_counterexample :
    (finalize_staging env6 finW6 [] false).stats.errors = 2 ∧
    (finalize_staging env6 finW6 [] false).stats.copied_to_camera = 1 ∧
    (lookupFile (finalize_staging env6 finW6 [] false).world.files
      (camFolder1 ++ ["c.JPG"])).isSome = true := by
  refine ⟨by decide, by decide, by decide⟩

/-- Witness for C6: the amended theorem applied at concrete inputs. -/
theorem hard_precondition_shortcircuit_amended_witness :
    finalize_staging env6 ⟨[], []⟩ [] false = ⟨zeroFin, ⟨[], []⟩, [], []⟩ ∧
    cleanup_unused_raws ⟨[], []⟩ [] false = ⟨0, 0, 0, ⟨[], []⟩, [], []⟩ ∧
    (finalizePhase1 env6 false [STAGING_PATH ++ ["a.JPG"]] 0 finW6 []).moved = 0 := by
  have H := hard_precondition_shortcircuit_amended
  exact ⟨H.1 env6 ⟨[], []⟩ [] false (by decide), H.2.1 ⟨[], []⟩ [] false (by decide),
    (H.2.2 env6 rfl [STAGING_PATH ++ ["a.JPG"]] 0 finW6 []).1⟩

/-- C7: a staging file whose compress-then-promote step fails during finalize
contributes exactly one error and does not stop the loop.  First conjunct:
when the compression stage fails (which covers both a compression failure and
a failed verification of the compressed file), the loop's result on
`sf :: rest` equals the result on `rest`, run in a world identical to the
previous one at every non-temporary path — the original staging file is
untouched — with only the error counter incremented.  Second conjunct: the
same when compression succeeds but the verified copy to Final fails, the
staging original again untouched.
In particular, on spec Scenario 4 (three staging files of which `b.JPG` is
corrupt), finalize reports moved=2, compressed=2, errors=1, skipped=0, leaves
the corrupt file untouched in staging and promotes the other two. -/
theorem finalize_compress_failure_isolated :
    (∀ env sf rest i w c,
      lookupFile w.files (FINAL_PATH ++ [fileName sf]) = none →
      (compress_jpeg_safe env ⟨w.dirs, insertFile w.files (tmpName i) ⟨[], 0, true⟩⟩
          sf (tmpName i)).1.1 = false →
      (finalizePhase1 env false (sf :: rest) i w c =
        ⟨(finalizePhase1 env false rest (i + 1)
            ⟨w.dirs, removeFile (insertFile w.files (tmpName i) ⟨[], 0, true⟩)
              (tmpName i)⟩ c).moved,
         (finalizePhase1 env false rest (i + 1)
            ⟨w.dirs, removeFile (insertFile w.files (tmpName i) ⟨[], 0, true⟩)
              (tmpName i)⟩ c).compressed,
         (finalizePhase1 env false rest (i + 1)
            ⟨w.dirs, removeFile (insertFile w.files (tmpName i) ⟨[], 0, true⟩)
              (tmpName i)⟩ c).skipped,
         (finalizePhase1 env false rest (i + 1)
            ⟨w.dirs, removeFile (insertFile w.files (tmpName i) ⟨[], 0, true⟩)
              (tmpName i)⟩ c).errors + 1,
         (finalizePhase1 env false rest (i + 1)
            ⟨w.dirs, removeFile (insertFile w.files (tmpName i) ⟨[], 0, true⟩)
              (tmpName i)⟩ c).world,
         (finalizePhase1 env false rest (i + 1)
            ⟨w.dirs, removeFile (insertFile w.files (tmpName i) ⟨[], 0, true⟩)
              (tmpName i)⟩ c).cache,
         (finalizePhase1 env false rest (i + 1)
            ⟨w.dirs, removeFile (insertFile w.files (tmpName i) ⟨[], 0, true⟩)
              (tmpName i)⟩ c).trace⟩) ∧
      (∀ q, q.length ≠ 1 →
        lookupFile (removeFile (insertFile w.files (tmpName i) ⟨[], 0, true⟩)
            (tmpName i)) q = lookupFile w.files q)) ∧
    (∀ env sf rest i w c,
      lookupFile w.files (FINAL_PATH ++ [fileName sf]) = none →
      (compress_jpeg_safe env ⟨w.dirs, insertFile w.files (tmpName i) ⟨[], 0, true⟩⟩
          sf (tmpName i)).1.1 = true →
      (safe_copy (compress_jpeg_safe env
          ⟨w.dirs, insertFile w.files (tmpName i) ⟨[], 0, true⟩⟩ sf (tmpName i)).2 c
          (tmpName i) (FINAL_PATH ++ [fileName sf])).success = false →
      (let rc := safe_copy (compress_jpeg_safe env
          ⟨w.dirs, insertFile w.files (tmpName i) ⟨[], 0, true⟩⟩ sf (tmpName i)).2 c
          (tmpName i) (FINAL_PATH ++ [fileName sf])
       let wA : World := ⟨rc.world.dirs, removeFile rc.world.files (tmpName i)⟩
       let r := finalizePhase1 env false rest (i + 1) wA rc.cache
       finalizePhase1 env false (sf :: rest) i w c =
         ⟨r.moved, r.compressed, r.skipped, r.errors + 1, r.world, r.cache,
          Ev.copied (tmpName i) (FINAL_PATH ++ [fileName sf]) false :: r.trace⟩ ∧
       (parentOf sf = STAGING_PATH → lookupFile wA.files sf = lookupFile w.files sf))) ∧
    ((finalize_staging env7 finW7 [] false).stats.moved = 2 ∧
     (finalize_staging env7 finW7 [] false).stats.compressed = 2 ∧
     (finalize_staging env7 finW7 [] false).stats.errors = 1 ∧
     (finalize_staging env7 finW7 [] false).stats.skipped = 0 ∧
     lookupFile (finalize_staging env7 finW7 [] false).world.files
       (STAGING_PATH ++ ["b.JPG"]) = some ⟨[9], 0, true⟩ ∧
     lookupFile (finalize_staging env7 finW7 [] false).world.files
       (STAGING_PATH ++ ["a.JPG"]) = none ∧
     lookupFile (finalize_staging env7 finW7 [] false).world.files
       (FINAL_PATH ++ ["a.JPG"]) = some ⟨[7, 1], 0, true⟩) := by
  refine ⟨?_, ?_, ?_⟩
  · intro env sf rest i w c hfp hcf
    constructor
    · rw [finalizePhase1]
      dsimp only
      simp only [hfp, Bool.false_eq_true, if_false, if_true, eq_self_iff_true]
      rw [if_pos hcf, compress_fail_world env _ sf (tmpName i) hcf]
    · intro q hq
      exact tmp_world_preserves w i q hq
  · intro env sf rest i w c hfp hcs hsf
    exact phase1_copy_fail_step env sf rest i w c hfp hcs hsf
  · refine ⟨by decide, by decide, by decide, by decide, by decide, by decide, by decide⟩

/-- Witness for C7: the step lemma applied to a one-file staging world whose
file is corrupt, plus the Scenario 4 statistics. -/
theorem finalize_compress_failure_isolated_witness :
    (finalizePhase1 env7 false [STAGING_PATH ++ ["b.JPG"]] 0
        ⟨[STAGING_PATH], [(STAGING_PATH ++ ["b.JPG"], ⟨[9], 0, true⟩)]⟩ []).errors = 1 ∧
    (finalize_staging env7 finW7 [] false).stats.moved = 2 := by
  have H := finalize_compress_failure_isolated
  constructor
  · have h1 := (H.1 env7 (STAGING_PATH ++ ["b.JPG"]) [] 0
      ⟨[STAGING_PATH], [(STAGING_PATH ++ ["b.JPG"], ⟨[9], 0, true⟩)]⟩ []
      (by decide) (by decide)).1
    rw [h1]
    rfl
  · exact H.2.2.1

/-- C2 (corrected/amended): within the generic transfer routine
`_process_files` — and hence throughout `import_from_camera`, whose whole
trace it produces — every deletion of a source file is preceded by a
successful verified `safe_copy` of that same path in the same run.  (The
literal claim over every operation is refuted separately: finalize deletes
camera RAWs with no copy at all, and deletes the staging original after
verifying only its compressed derivative.) -/
theorem workflow_deletions_verified :
    (∀ dest dry del files w c seen,
      deletionsVerified seen (process_files dest dry del files w c).trace = true) ∧
    (∀ w c dry, deletionsVerified [] (import_from_camera w c dry).trace = true) := by
  refine ⟨fun dest dry del files w c seen =>
    process_files_trace_verified dest dry del files w c seen, ?_⟩
  intro w c dry
  unfold import_from_camera
  dsimp only
  apply dv_append
  · apply dv_append
    · exact process_files_trace_verified _ _ _ _ _ _ _
    · intro s
      exact process_files_trace_verified _ _ _ _ _ _ _
  · intro s
    exact process_files_trace_verified _ _ _ _ _ _ _

/-- Counterexample to C2 as stated: finalize, with a connected camera holding
`IMG_001.RAF` whose stem is already finalized, unlinks that RAW from the
camera even though no safe_copy of that path ever ran: the file is gone and
the run's trace fails deletion verification. -/
theorem deletion_invariant_counterexample :
    (lookupFile delW2.files (camFolder1 ++ ["IMG_001.RAF"])).isSome = true ∧
    lookupFile (finalize_staging envOk delW2 [] false).world.files
      (camFolder1 ++ ["IMG_001.RAF"]) = none ∧
    deletionsVerified [] (finalize_staging envOk delW2 [] false).trace = false := by
  refine ⟨by decide, by decide, by decide⟩

/-- C8 (corrected/amended): import excludes the camera JPG and RAF files
whose stem already exists among the final library's JPG stems — none of them
is written to the staging or RAW-backup destination, and their number is
counted into the skipped statistic — but MOV files are not filtered: a video
whose stem is finalized is still transferred (refuted separately by the
counterexample). -/
theorem import_excludes_finalized_jpg_raf (w : World) (c : Cache) :
    (∀ n : String,
      stemOf n ∈ (if FINAL_PATH ∈ w.dirs then finalJpgBases w.files else []) →
      (lookupFile w.files (STAGING_PATH ++ [n]) = none →
        lookupFile (import_from_camera w c false).world.files (STAGING_PATH ++ [n]) = none) ∧
      (lookupFile w.files (RAWS_PATH ++ [n]) = none →
        lookupFile (import_from_camera w c false).world.files (RAWS_PATH ++ [n]) = none)) ∧
    ((scan_camera_files w).jpg.length -
        ((scan_camera_files w).jpg.filter (fun p =>
          ¬ stemOf (fileName p) ∈
            (if FINAL_PATH ∈ w.dirs then finalJpgBases w.files else []))).length) +
      ((scan_camera_files w).raf.length -
        ((scan_camera_files w).raf.filter (fun p =>
          ¬ stemOf (fileName p) ∈
            (if FINAL_PATH ∈ w.dirs then finalJpgBases w.files else []))).length) ≤
      (import_from_camera w c false).skipped := by
  constructor
  · intro n hn
    constructor
    · intro hq
      unfold import_from_camera
      dsimp only
      apply process_files_no_new
      · apply process_files_no_new
        · apply process_files_no_new
          · exact hq
          · intro fp _
            exact append_singleton_ne STAGING_PATH SSD_PATH n (fileName fp)
              (by decide) (by decide)
        · intro fp hfp
          intro he
          have hname : n = fileName fp := by
            have := List.append_cancel_left he
            exact List.singleton_injective this
          have hkeep := (List.mem_filter.mp hfp).2
          rw [← hname] at hkeep
          exact (of_decide_eq_true hkeep) hn
      · intro fp _
        exact append_singleton_ne STAGING_PATH RAWS_PATH n (fileName fp)
          (by decide) (by decide)
    · intro hq
      unfold import_from_camera
      dsimp only
      apply process_files_no_new
      · apply process_files_no_new
        · apply process_files_no_new
          · exact hq
          · intro fp _
            exact append_singleton_ne RAWS_PATH SSD_PATH n (fileName fp)
              (by decide) (by decide)
        · intro fp _
          exact append_singleton_ne RAWS_PATH STAGING_PATH n (fileName fp)
            (by decide) (by decide)
      · intro fp hfp
        intro he
        have hname : n = fileName fp := by
          have := List.append_cancel_left he
          exact List.singleton_injective this
        have hkeep := (List.mem_filter.mp hfp).2
        rw [← hname] at hkeep
        exact (of_decide_eq_true hkeep) hn
  · unfold import_from_camera
    dsimp only
    exact Nat.le_add_left _ _

/-- Witness for C8: on the counterexample world, the finalized stem
`IMG_001` is indeed kept out of staging and the RAW backup. -/
theorem import_excludes_finalized_jpg_raf_witness :
    lookupFile (import_from_camera importW8 [] false).world.files
      (STAGING_PATH ++ ["IMG_001.JPG"]) = none ∧
    lookupFile (import_from_camera importW8 [] false).world.files
      (RAWS_PATH ++ ["IMG_001.RAF"]) = none := by
  have H := (import_excludes_finalized_jpg_raf importW8 []).1
  exact ⟨(H "IMG_001.JPG" (by decide)).1 (by decide),
    (H "IMG_001.RAF" (by decide)).2 (by decide)⟩

/-- Counterexample to C8 as stated: a camera MOV whose stem is already
finalized is not excluded: import transfers it to the video archive, deletes
it from the camera, and counts no skip. -/
theorem import_mov_not_excluded_counterexample :
    (import_from_camera importW8 [] false).videos = 1 ∧
    (import_from_camera importW8 [] false).skipped = 0 ∧
    (lookupFile (import_from_camera importW8 [] false).world.files
      (SSD_PATH ++ ["IMG_001.MOV"])).isSome = true ∧
    lookupFile (import_from_camera importW8 [] false).world.files
      (camFolder1 ++ ["IMG_001.MOV"]) = none := by
  refine ⟨by decide, by decide, by decide, by decide⟩

end PhotoFlow

